import Mathlib

/-!
# The VMI solver (`src/solver.h`): embedding and checked properties

The class `Solver` of `src/solver.h` is embedded as a record of its data members and one
function per member function.  Conventions of the embedding:

* `int` is `Int`; the negations of lines 51, 149 and 181 and the increment of line 91
  are reduced to 32 bits as the compiled code does (`wrap32`, `neg32`), so that the
  least `int`, -2147483648, is its own negation and absolute value;
* `std::vector<T>` is `List T`; `std::set<int>` is the list of its elements in increasing
  order; `std::map<int, V>` is the list of its entries in increasing key order, which is
  the order in which the source iterates these containers;
* a member function that can dereference a null pointer (`(*literals)[label]` on an absent
  label creates a null entry and the next line dereferences it) returns `Option`, `none`
  standing for the undefined behaviour;
* `checkSAT` is a loop without a bound, so it is embedded as one loop iteration
  (`Solver.checkSATStep`) and its `n`-fold iteration (`Solver.checkSAT n`).

`clause.h`, which declares `Literal` and `Clause`, is not among the sources; both types
are modelled from sections 3 and 4 of the specification and are marked as such.
-/

namespace VMI

/-! ## Containers -/

/-- Reduction of an integer to the range of a 32-bit two's-complement `int`. -/
def wrap32 (x : Int) : Int := (x + 2147483648) % 4294967296 - 2147483648

/-- Negation `-x` of an `int` as the compiled code computes it: exact for every `int`
but the least one, -2147483648, which it returns unchanged. -/
def neg32 (x : Int) : Int := wrap32 (-x)

/-- Absolute value of an atom: `(atom > 0) ? atom : -atom` (line 51), `std::abs(atom)`
(line 149), with the negation of an `int`. -/
def absInt (a : Int) : Int := if a > 0 then a else neg32 a

/-- Insertion `std::set<int>::insert(x)` into a set kept as an increasing list. -/
def setInsert (x : Int) : List Int → List Int
  | [] => [x]
  | y :: ys => if x < y then x :: y :: ys else if x = y then y :: ys else y :: setInsert x ys

/-- Range insertion `xs.insert(ys.begin(), ys.end())`. -/
def setInsertAll (xs ys : List Int) : List Int :=
  ys.foldl (fun acc y => setInsert y acc) xs

/-- Lookup `std::map::find`: the value stored under key `k`, if any. -/
def mapFind {α : Type} (k : Int) : List (Int × α) → Option α
  | [] => none
  | (k', v) :: m => if k = k' then some v else mapFind k m

/-- Ordered insertion of an entry for a key that the map does not hold. -/
def mapInsert {α : Type} (k : Int) (v : α) : List (Int × α) → List (Int × α)
  | [] => [(k, v)]
  | (k', v') :: m => if k < k' then (k, v) :: (k', v') :: m else (k', v') :: mapInsert k v m

/-- In-place update of the object stored under key `k` (a call through the stored
pointer, or a write through the reference `m[k]`); nothing happens when the key is
absent. -/
def mapModify {α : Type} (k : Int) (f : α → α) : List (Int × α) → List (Int × α)
  | [] => []
  | (k', v) :: m => if k = k' then (k', f v) :: m else (k', v) :: mapModify k f m

/-- Insertion `std::map::emplace(k, v)`: inserts only when the key is absent. -/
def mapEmplace {α : Type} (k : Int) (v : α) (m : List (Int × α)) : List (Int × α) :=
  match mapFind k m with
  | some _ => m
  | none => mapInsert k v m

/-- Assignment `m[k] = v`: overwrites the value of a present key, inserts an absent one. -/
def mapAssign {α : Type} (k : Int) (v : α) (m : List (Int × α)) : List (Int × α) :=
  match mapFind k m with
  | some _ => mapModify k (fun _ => v) m
  | none => mapInsert k v m

/-- Removal `std::map::erase(k)`. -/
def mapErase {α : Type} (k : Int) (m : List (Int × α)) : List (Int × α) :=
  m.filter (fun p => decide (p.1 ≠ k))

/-- Representation invariant of a `std::map`: keys strictly increasing. -/
def MapOrdered {α : Type} (m : List (Int × α)) : Prop :=
  m.Pairwise (fun p q => p.1 < q.1)

/-! ## `Literal` and `Clause` (declared in `clause.h`) -/

/-- Modelled from the spec: `class Literal` of `clause.h` is not among the sources.
Section 3, "Variable": a positive integer identity plus the state unassigned or assigned
true/false.  `solver.h` reads the members `assigned` and `value`. -/
structure Literal where
  label : Int
  assigned : Bool
  value : Bool
deriving DecidableEq, Repr

/-- Modelled from the spec: the constructor `Literal(pos)` of `clause.h`; a variable is
created unassigned (section 4.1). -/
def Literal.new (pos : Int) : Literal := ⟨pos, false, false⟩

/-- Modelled from the spec: `Literal::assign(value)` of `clause.h`. -/
def Literal.assign (l : Literal) (v : Bool) : Literal :=
  { l with assigned := true, value := v }

/-- Modelled from the spec: `Literal::deassign()` of `clause.h`; the variable reverts to
unassigned. -/
def Literal.deassign (l : Literal) : Literal :=
  { l with assigned := false }

/-- Modelled from the spec: `class Clause` of `clause.h` is not among the sources.
Section 3, "Clause": an ordered sequence of atoms plus the derived status.  `solver.h`
reads the members `atoms`, `assigned` and `value`: `assigned && value` is the status
satisfied, `assigned && !value` is falsified, `!assigned` is unit or undetermined. -/
structure Clause where
  atoms : List Int
  assigned : Bool
  value : Bool
deriving DecidableEq, Repr

/-- Modelled from the spec: the constructor `Clause(literals)` of `clause.h`; a clause
starts without atoms and without a determined status. -/
def Clause.new : Clause := ⟨[], false, false⟩

/-- Modelled from the spec: `Clause::addAtom` of `clause.h`; atoms are kept "in the
order supplied" (section 4.1). -/
def Clause.addAtom (c : Clause) (a : Int) : Clause :=
  { c with atoms := c.atoms ++ [a] }

/-- Modelled from the spec: the variable of atom `a` is unassigned (section 3). -/
def atomUnassigned (lits : List (Int × Literal)) (a : Int) : Bool :=
  match mapFind (absInt a) lits with
  | some l => !l.assigned
  | none => true

/-- Modelled from the spec: atom `a` is satisfied, section 3: "positive = the variable
must be true for this atom to be satisfied; negative = must be false". -/
def atomSatisfied (lits : List (Int × Literal)) (a : Int) : Bool :=
  match mapFind (absInt a) lits with
  | some l => l.assigned && ((decide (0 < a) && l.value) || (decide (a < 0) && !l.value))
  | none => false

/-- Modelled from the spec: `Clause::recalculateStatus` of `clause.h`.  Section 3:
satisfied iff at least one atom's polarity matches its variable's assignment; falsified
iff every atom's variable is assigned and no atom's polarity matches. -/
def Clause.recalculateStatus (lits : List (Int × Literal)) (c : Clause) : Clause :=
  if c.atoms.any (atomSatisfied lits) then { c with assigned := true, value := true }
  else if c.atoms.all (fun a => !atomUnassigned lits a) then
    { c with assigned := true, value := false }
  else { c with assigned := false, value := false }

/-- Modelled from the spec: `Clause::isUnitClause` of `clause.h`.  Section 3: unit iff
exactly one atom's variable is unassigned and no atom is currently satisfied. -/
def Clause.isUnitClause (lits : List (Int × Literal)) (c : Clause) : Bool :=
  ((c.atoms.filter (atomUnassigned lits)).length == 1) && !c.atoms.any (atomSatisfied lits)

/-- Modelled from the spec: `Clause::getUnassignedAtom` of `clause.h`: "the clause's
single unassigned atom" (section 4.2). -/
def Clause.getUnassignedAtom (lits : List (Int × Literal)) (c : Clause) : Int :=
  match c.atoms.find? (atomUnassigned lits) with
  | some a => a
  | none => 0

/-- Modelled from the spec: `Clause::assignAtom` of `clause.h`.  The status is "purely
derived" from the variables (section 4.2), so the notification stores nothing. -/
def Clause.assignAtom (_label : Int) (c : Clause) : Clause := c

/-- Modelled from the spec: `Clause::deassignAtom` of `clause.h`; see `Clause.assignAtom`. -/
def Clause.deassignAtom (_label : Int) (c : Clause) : Clause := c

/-! ## `Solver` -/

/-- Data members of `class Solver` (lines 6-23). -/
structure Solver where
  clauses : List Clause
  labels : List Int
  literals : List (Int × Literal)
  decision_level : List (Int × Int)
  current_decision_level : Int
  decision_sources : List (Int × List Int)
  result : String
deriving DecidableEq, Repr

/-- Constructor `Solver()` (lines 25-28) with the member initialisers. -/
def Solver.new : Solver := ⟨[], [], [], [], 0, [], "TBD"⟩

/-- One iteration of the loop of `addClause` (lines 50-61). -/
def Solver.addAtomStep (acc : Solver × Clause) (atom : Int) : Solver × Clause :=
  let pos := absInt atom
  let s := acc.1
  let s1 :=
    if s.labels.contains pos == false then
      { s with labels := setInsert pos s.labels,
               literals := mapEmplace pos (Literal.new pos) s.literals }
    else s
  (s1, acc.2.addAtom atom)

/-- Member `addClause` (lines 41-64). -/
def Solver.addClause (s : Solver) (atoms : List Int) : Solver :=
  if atoms.length = 0 then s
  else
    let r := atoms.foldl Solver.addAtomStep (s, Clause.new)
    { r.1 with clauses := r.1.clauses ++ [r.2] }

/-- The loop of `getUnitClause` from index `i` on. -/
def Solver.getUnitClauseFrom (lits : List (Int × Literal)) : List Clause → Nat → Int
  | [], _ => -1
  | c :: cs, i => if c.isUnitClause lits then (i : Int) else getUnitClauseFrom lits cs (i + 1)

/-- Member `getUnitClause` (lines 67-75). -/
def Solver.getUnitClause (s : Solver) : Int :=
  Solver.getUnitClauseFrom s.literals s.clauses 0

/-- Member `allClausesSatisfied` (lines 78-84). -/
def Solver.allClausesSatisfied (s : Solver) : Bool :=
  s.clauses.all (fun c => !(c.assigned == false || c.value == false))

/-- Member `assignLiteral` (lines 98-109). -/
def Solver.assignLiteral (s : Solver) (label : Int) (value : Bool) : Option Solver :=
  match mapFind label s.literals with
  | none => none
  | some _ =>
    let lits := mapModify label (fun l => l.assign value) s.literals
    some { s with
      literals := lits,
      clauses := s.clauses.map (fun c => (c.assignAtom label).recalculateStatus lits),
      decision_level := mapAssign label s.current_decision_level s.decision_level }

/-- The scan of `makeDecision`: key of the first unassigned entry of the map. -/
def Solver.firstUnassigned : List (Int × Literal) → Option Int
  | [] => none
  | (k, l) :: m => if l.assigned == false then some k else firstUnassigned m

/-- Member `makeDecision` (lines 87-95). -/
def Solver.makeDecision (s : Solver) : Option Solver :=
  match Solver.firstUnassigned s.literals with
  | none => some s
  | some k =>
    match s.assignLiteral k true with
    | none => none
    | some s1 =>
      some { s1 with current_decision_level := wrap32 (s1.current_decision_level + 1) }

/-- Member `deassignLiteral` (lines 112-120). -/
def Solver.deassignLiteral (s : Solver) (label : Int) : Option Solver :=
  match mapFind label s.literals with
  | none => none
  | some _ =>
    let lits := mapModify label (fun l => l.deassign) s.literals
    some { s with
      literals := lits,
      clauses := s.clauses.map (fun c => (c.deassignAtom label).recalculateStatus lits) }

/-- First loop of `backtrack` (lines 127-132) over the entries of `decision_level`;
the second component is the local set `to_deassign`. -/
def Solver.backtrackScan (L : Int) :
    List (Int × Int) → Solver × List Int → Option (Solver × List Int)
  | [], acc => some acc
  | (k, lvl) :: rest, (s, td) =>
    if lvl > L then
      match s.deassignLiteral k with
      | none => none
      | some s1 => backtrackScan L rest (s1, setInsert k td)
    else backtrackScan L rest (s, td)

/-- Member `backtrack` (lines 123-142). -/
def Solver.backtrack (s : Solver) (backtrack_level : Int) : Option Solver :=
  match Solver.backtrackScan backtrack_level s.decision_level (s, []) with
  | none => none
  | some (s1, to_deassign) =>
    some { s1 with
      decision_level := to_deassign.foldl (fun m k => mapErase k m) s1.decision_level,
      clauses := s1.clauses.map (fun c => c.recalculateStatus s1.literals),
      current_decision_level := backtrack_level }

/-- First loop of `analyzeConflict` (lines 148-150): `operator[]` creates an empty set
for an absent key. -/
def Solver.collectSources (acc : List Int × List (Int × List Int)) (atom : Int) :
    List Int × List (Int × List Int) :=
  let ds := mapEmplace (absInt atom) [] acc.2
  (setInsertAll acc.1 ((mapFind (absInt atom) ds).getD []), ds)

/-- Member `analyzeConflict` (lines 145-163): the learnt clause (`none` for `nullptr`)
and the solver with the entries `operator[]` created. -/
def Solver.analyzeConflict (s : Solver) (conflict_clause : Clause) : Option Clause × Solver :=
  let r := conflict_clause.atoms.foldl Solver.collectSources ([], s.decision_sources)
  let learnt_clause := r.1.foldl (fun c atom => c.addAtom (-atom)) Clause.new
  let s1 := { s with decision_sources := r.2 }
  if learnt_clause.atoms.isEmpty then (none, s1) else (some learnt_clause, s1)

/-- Outcome of running `checkSAT`: still in the loop, returned, or undefined behaviour. -/
inductive Run where
  | running (s : Solver)
  | returned (s : Solver)
  | undefined
deriving DecidableEq, Repr

/-- The loop over the clauses at lines 192-219 up to the first conflict: the clauses
with the status recomputed so far, and the conflict clause if one was met. -/
def Solver.scanClauses (lits : List (Int × Literal)) (unassigned : Int) :
    List Clause → List Clause × Option Clause
  | [] => ([], none)
  | c :: rest =>
    let c1 := (c.assignAtom unassigned).recalculateStatus lits
    if c1.assigned == true && c1.value == false then (c1 :: rest, some c1)
    else
      let r := scanClauses lits unassigned rest
      (c1 :: r.1, r.2)

/-- The loop at lines 185-189 ("set decision_sources"). -/
def Solver.setSources (unassigned : Int) (ds : List (Int × List Int)) (atom : Int) :
    List (Int × List Int) :=
  if atom != unassigned then
    let ds1 := mapEmplace atom [] (mapEmplace unassigned [] ds)
    mapAssign unassigned
      (setInsertAll ((mapFind unassigned ds1).getD []) ((mapFind atom ds1).getD [])) ds1
  else ds

/-- The loop at lines 210-211: the set `levels`, and `decision_level` with the entries
`operator[]` created. -/
def Solver.collectLevels (acc : List (Int × Int) × List Int) (atom : Int) :
    List (Int × Int) × List Int :=
  let dl := mapEmplace atom 0 acc.1
  (dl, setInsert ((mapFind atom dl).getD 0) acc.2)

/-- The computation of the backtrack level at lines 208-214: `decision_level` with the
entries `operator[]` created, and the value of `* levels.rbegin()` after the greatest
level was erased (`none` when `levels` is then empty and the dereference is undefined). -/
def Solver.backtrackLevel (decision_level : List (Int × Int)) (learnt_clause : Clause) :
    List (Int × Int) × Option Int :=
  let r := learnt_clause.atoms.foldl Solver.collectLevels (decision_level, [])
  (r.1, r.2.dropLast.getLast?)

/-- Body of the inner `while` of `checkSAT` (lines 172-221) for the unit clause at
`index_unit_clause`. -/
def Solver.propagate (s : Solver) (index_unit_clause : Int) : Run :=
  match s.clauses.get? index_unit_clause.toNat with
  | none => .undefined
  | some uc =>
    let unassigned := uc.getUnassignedAtom s.literals
    let key := if unassigned > 0 then unassigned else neg32 unassigned
    match mapFind key s.literals with
    | none => .undefined
    | some _ =>
      let lits := mapModify key (fun l => l.assign (decide (unassigned > 0))) s.literals
      let ds := uc.atoms.foldl (Solver.setSources unassigned) s.decision_sources
      let sc := Solver.scanClauses lits unassigned s.clauses
      let s1 := { s with literals := lits, decision_sources := ds, clauses := sc.1 }
      match sc.2 with
      | none => .running s1
      | some c =>
        match s1.analyzeConflict c with
        | (none, s2) => .returned { s2 with result := "UNSAT" }
        | (some learnt_clause, s2) =>
          let r := Solver.backtrackLevel s2.decision_level learnt_clause
          match r.2 with
          | none => .undefined
          | some backtrack_level =>
            match Solver.backtrack
                { s2 with clauses := s2.clauses ++ [learnt_clause], decision_level := r.1 }
                backtrack_level with
            | none => .undefined
            | some s3 => .running s3

/-- One iteration of `checkSAT` (lines 166-231).  The outer loop recomputes
`getUnitClause()` at its head and the inner `while` recomputes it after each pass, so
both are one loop: propagate while a unit clause exists, otherwise return SAT or decide. -/
def Solver.checkSATStep (s : Solver) : Run :=
  let index_unit_clause := s.getUnitClause
  if index_unit_clause != -1 then s.propagate index_unit_clause
  else if s.allClausesSatisfied then .returned { s with result := "SAT" }
  else
    match s.makeDecision with
    | none => .undefined
    | some s1 => .running s1

/-- Member `checkSAT` run for at most `n` loop iterations: `running s` when it is still
in the loop in state `s`, `returned s` when it has returned in state `s`. -/
def Solver.checkSAT : Nat → Solver → Run
  | 0, s => .running s
  | n + 1, s =>
    match s.checkSATStep with
    | .running s1 => Solver.checkSAT n s1
    | r => r

/-- The text appended for one entry by `printAssignment` (line 237). -/
def Solver.printEntry (p : Int × Literal) : String :=
  "Literal " ++ toString p.1 ++ " : " ++
    (if p.2.assigned then (if p.2.value then "1" else "0") else "0") ++ "\n"

/-- Member `printAssignment` (lines 234-240). -/
def Solver.printAssignment (s : Solver) : String :=
  s.literals.foldl (fun assignment p => assignment ++ Solver.printEntry p) ""

/-- A solver on which `addClause` was called once per element of `formula`, in order. -/
def Solver.build (formula : List (List Int)) : Solver :=
  formula.foldl Solver.addClause Solver.new

/-! ## Statement vocabulary -/

/-- The value `printAssignment` reports for variable `v`: true only when the variable is
assigned true; an unassigned (or absent) variable reads as false. -/
def Solver.modelValue (s : Solver) (v : Int) : Bool :=
  match mapFind v s.literals with
  | some l => l.assigned && l.value
  | none => false

/-- Atom `a` matches the reported value of its variable: a positive atom on a true
variable or a negative atom on a false one. -/
def Solver.atomHolds (s : Solver) (a : Int) : Prop :=
  (0 < a ∧ s.modelValue (absInt a) = true) ∨ (a < 0 ∧ s.modelValue (absInt a) = false)

/-- Every stored status is the one `recalculateStatus` derives from the current
variables. -/
def Solver.Fresh (s : Solver) : Prop :=
  ∀ c ∈ s.clauses, c.recalculateStatus s.literals = c

/-- Identifiers of the solver's variables, in the iteration order of the `literals` map. -/
def Solver.variableIds (s : Solver) : List Int :=
  s.literals.map Prod.fst

/-- The report line of section 6 for variable `id` with value `b`:
`Literal <id> : <0|1>` and a line break. -/
def reportLine (id : Int) (b : Bool) : String :=
  "Literal " ++ toString id ++ " : " ++ (if b then "1" else "0") ++ "\n"

/-- The clause collection of `s1` is that of `s` (same atoms, same order) followed by
further clauses. -/
def Solver.Extends (s1 s : Solver) : Prop :=
  ∃ t, s1.clauses.map Clause.atoms = s.clauses.map Clause.atoms ++ t

/-- Truth of a formula under the total assignment `σ` of the variables: every clause
has a positive atom on a true variable or a negative atom on a false one. -/
def evalFormula (σ : Int → Bool) (formula : List (List Int)) : Bool :=
  formula.all (fun atoms =>
    atoms.any (fun a => (decide (0 < a) && σ (absInt a)) || (decide (a < 0) && !σ (absInt a))))

/-- All total assignments that differ only on the listed variables. -/
def assignmentsOver : List Int → List (Int → Bool)
  | [] => [fun _ => false]
  | v :: vs =>
    (assignmentsOver vs).flatMap (fun σ => [σ, fun x => if x = v then true else σ x])

/-- The brute-force verdict of section 8: some total assignment of the formula's
variables satisfies every clause. -/
def bruteForceSAT (formula : List (List Int)) : Bool :=
  (assignmentsOver (formula.flatMap (fun atoms => atoms.map absInt))).any
    (fun σ => evalFormula σ formula)

/-- The variable table is closed under the clause atoms: the labels are exactly the keys
of the `literals` map, and the variable of every atom of every clause is one of them. -/
def Solver.Closed (s : Solver) : Prop :=
  (∀ k, k ∈ s.labels ↔ (mapFind k s.literals).isSome = true) ∧
  (∀ c ∈ s.clauses, ∀ a ∈ c.atoms, (mapFind (absInt a) s.literals).isSome = true)

/-- Every set stored in `decision_sources` is empty. -/
def Solver.NoSources (s : Solver) : Prop :=
  ∀ p ∈ s.decision_sources, p.2 = []

/-- No clause has the stored status falsified (`assigned && !value`). -/
def Solver.NoFalsified (s : Solver) : Prop :=
  ∀ c ∈ s.clauses, ¬ (c.assigned = true ∧ c.value = false)

/-- The `literals` map after the assignment made by a propagation of atom `a`
(lines 176-182): the variable `|a|` is assigned true when `a > 0`, false otherwise. -/
def Solver.propagatedLiterals (s : Solver) (a : Int) : List (Int × Literal) :=
  mapModify (absInt a) (fun l => l.assign (decide (a > 0))) s.literals

/-- Number of unassigned variables. -/
def Solver.unassignedCount (s : Solver) : Nat :=
  (s.literals.filter (fun p => !p.2.assigned)).length

/-- No clause mentions a variable twice. -/
def Solver.DistinctVars (s : Solver) : Prop :=
  ∀ c ∈ s.clauses, (c.atoms.map absInt).Nodup

/-- The state of a run on a formula without repeated variables, at the head of a loop
iteration: closed variable table, no antecedents, stored statuses up to date, ordered
`literals` map, no falsified clause, no variable twice in a clause. -/
def Solver.Steady (s : Solver) : Prop :=
  s.Closed ∧ s.NoSources ∧ s.Fresh ∧ MapOrdered s.literals ∧ s.NoFalsified ∧ s.DistinctVars

/-! ## 32-bit arithmetic -/

theorem absInt_eq_abs (a : Int) (h : -2147483648 < a) : absInt a = |a| := by
  unfold absInt
  split_ifs with hpos
  · exact (abs_of_pos hpos).symm
  · have hle : a ≤ 0 := by omega
    rw [abs_of_nonpos hle]
    unfold neg32 wrap32
    omega

/-! ## Container lemmas -/

theorem mem_setInsert (x a : Int) (ys : List Int) :
    a ∈ setInsert x ys ↔ a = x ∨ a ∈ ys := by
  induction ys with
  | nil => simp [setInsert]
  | cons y ys ih =>
    unfold setInsert
    split_ifs with h1 h2
    · simp
    · subst h2; simp
    · simp only [List.mem_cons, ih]; tauto

theorem mapFind_mem {α : Type} (k : Int) (v : α) (m : List (Int × α))
    (h : mapFind k m = some v) : (k, v) ∈ m := by
  induction m with
  | nil => simp [mapFind] at h
  | cons p m ih =>
    obtain ⟨k1, v1⟩ := p
    unfold mapFind at h
    split_ifs at h with hk
    · simp only [Option.some.injEq] at h
      subst hk; subst h; simp
    · exact List.mem_cons_of_mem _ (ih h)

theorem mapFind_isSome_of_mem {α : Type} (k : Int) (v : α) (m : List (Int × α))
    (h : (k, v) ∈ m) : (mapFind k m).isSome = true := by
  induction m with
  | nil => simp at h
  | cons p m ih =>
    obtain ⟨k1, v1⟩ := p
    unfold mapFind
    split_ifs with hk
    · rfl
    · rcases List.mem_cons.1 h with h1 | h1
      · exact absurd (congrArg Prod.fst h1) hk
      · exact ih h1

theorem mapFind_of_mem_ordered {α : Type} (k : Int) (v : α) (m : List (Int × α))
    (ho : MapOrdered m) (h : (k, v) ∈ m) : mapFind k m = some v := by
  induction m with
  | nil => simp at h
  | cons p m ih =>
    obtain ⟨k1, v1⟩ := p
    have ho1 := List.pairwise_cons.1 ho
    unfold mapFind
    rcases List.mem_cons.1 h with h1 | h1
    · cases h1; simp
    · have hlt : k1 < k := ho1.1 (k, v) h1
      have hne : ¬ k = k1 := by omega
      rw [if_neg hne]
      exact ih ho1.2 h1

theorem mapFind_mapInsert_self {α : Type} (k : Int) (v : α) (m : List (Int × α))
    (h : mapFind k m = none) : mapFind k (mapInsert k v m) = some v := by
  induction m with
  | nil => simp [mapInsert, mapFind]
  | cons p m ih =>
    obtain ⟨k1, v1⟩ := p
    unfold mapFind at h
    split_ifs at h with hk
    unfold mapInsert
    split_ifs with h1
    · simp [mapFind]
    · simp only [mapFind, if_neg hk]; exact ih h

theorem mapFind_mapInsert_ne {α : Type} (j k : Int) (v : α) (m : List (Int × α))
    (hne : j ≠ k) : mapFind j (mapInsert k v m) = mapFind j m := by
  induction m with
  | nil => simp [mapInsert, mapFind, hne]
  | cons p m ih =>
    obtain ⟨k1, v1⟩ := p
    unfold mapInsert
    split_ifs with h1
    · simp [mapFind, hne]
    · simp only [mapFind, ih]

theorem mapFind_mapModify_self {α : Type} (k : Int) (f : α → α) (m : List (Int × α)) :
    mapFind k (mapModify k f m) = (mapFind k m).map f := by
  induction m with
  | nil => simp [mapModify, mapFind]
  | cons p m ih =>
    obtain ⟨k1, v1⟩ := p
    unfold mapModify
    split_ifs with h1
    · simp [mapFind, h1]
    · simp only [mapFind, if_neg h1, ih]

theorem mapFind_mapModify_ne {α : Type} (j k : Int) (f : α → α) (m : List (Int × α))
    (hne : j ≠ k) : mapFind j (mapModify k f m) = mapFind j m := by
  induction m with
  | nil => simp [mapModify, mapFind]
  | cons p m ih =>
    obtain ⟨k1, v1⟩ := p
    unfold mapModify
    split_ifs with h1
    · subst h1; simp [mapFind, hne]
    · simp only [mapFind, ih]

theorem mapFind_mapEmplace_of_some {α : Type} (j k : Int) (v w : α) (m : List (Int × α))
    (h : mapFind j m = some w) : mapFind j (mapEmplace k v m) = some w := by
  unfold mapEmplace
  cases hk : mapFind k m with
  | some x => simpa using h
  | none =>
    have hne : j ≠ k := by
      intro e; subst e; rw [h] at hk; cases hk
    simpa [mapFind_mapInsert_ne j k v m hne] using h

theorem mapFind_mapEmplace_self {α : Type} (k : Int) (v : α) (m : List (Int × α)) :
    (mapFind k (mapEmplace k v m)).isSome = true := by
  unfold mapEmplace
  cases hk : mapFind k m with
  | some x => simp [hk]
  | none => simp [mapFind_mapInsert_self k v m hk]

/-! ## `addClause` -/

theorem addAtomStep_frame (acc : Solver × Clause) (a : Int) :
    (Solver.addAtomStep acc a).1.clauses = acc.1.clauses ∧
    (Solver.addAtomStep acc a).1.decision_level = acc.1.decision_level ∧
    (Solver.addAtomStep acc a).1.current_decision_level = acc.1.current_decision_level ∧
    (Solver.addAtomStep acc a).1.decision_sources = acc.1.decision_sources ∧
    (Solver.addAtomStep acc a).1.result = acc.1.result ∧
    (Solver.addAtomStep acc a).2.atoms = acc.2.atoms ++ [a] ∧
    (Solver.addAtomStep acc a).2.assigned = acc.2.assigned ∧
    (Solver.addAtomStep acc a).2.value = acc.2.value := by
  unfold Solver.addAtomStep
  simp only [Clause.addAtom]
  split_ifs <;> simp

theorem addAtoms_frame (atoms : List Int) (acc : Solver × Clause) :
    (atoms.foldl Solver.addAtomStep acc).1.clauses = acc.1.clauses ∧
    (atoms.foldl Solver.addAtomStep acc).1.decision_level = acc.1.decision_level ∧
    (atoms.foldl Solver.addAtomStep acc).1.current_decision_level
      = acc.1.current_decision_level ∧
    (atoms.foldl Solver.addAtomStep acc).1.decision_sources = acc.1.decision_sources ∧
    (atoms.foldl Solver.addAtomStep acc).1.result = acc.1.result ∧
    (atoms.foldl Solver.addAtomStep acc).2.atoms = acc.2.atoms ++ atoms ∧
    (atoms.foldl Solver.addAtomStep acc).2.assigned = acc.2.assigned ∧
    (atoms.foldl Solver.addAtomStep acc).2.value = acc.2.value := by
  induction atoms generalizing acc with
  | nil => simp
  | cons a atoms ih =>
    have h := addAtomStep_frame acc a
    have h2 := ih (Solver.addAtomStep acc a)
    simp only [List.foldl_cons]
    refine ⟨h2.1.trans h.1, h2.2.1.trans h.2.1, h2.2.2.1.trans h.2.2.1,
      h2.2.2.2.1.trans h.2.2.2.1, h2.2.2.2.2.1.trans h.2.2.2.2.1, ?_,
      h2.2.2.2.2.2.2.1.trans h.2.2.2.2.2.2.1, h2.2.2.2.2.2.2.2.trans h.2.2.2.2.2.2.2⟩
    rw [h2.2.2.2.2.2.1, h.2.2.2.2.2.1]; simp

theorem addAtomStep_labels (acc : Solver × Clause) (a k : Int) :
    k ∈ (Solver.addAtomStep acc a).1.labels ↔ k = absInt a ∨ k ∈ acc.1.labels := by
  unfold Solver.addAtomStep
  by_cases h : acc.1.labels.contains (absInt a) = true
  · simp only [h, Bool.true_eq_false, if_false, beq_iff_eq]
    constructor
    · exact fun hk => Or.inr hk
    · rintro (hk | hk)
      · subst hk; simpa using h
      · exact hk
  · simp only [Bool.not_eq_true] at h
    simp only [h, beq_self_eq_true, if_true, mem_setInsert]

theorem addAtomStep_find_some (acc : Solver × Clause) (a k : Int) (l : Literal)
    (h : mapFind k acc.1.literals = some l) :
    mapFind k (Solver.addAtomStep acc a).1.literals = some l := by
  unfold Solver.addAtomStep
  simp only
  split_ifs
  · exact mapFind_mapEmplace_of_some k _ _ l _ h
  · exact h

theorem addAtoms_labels_mono (atoms : List Int) (acc : Solver × Clause) (k : Int)
    (h : k ∈ acc.1.labels) : k ∈ (atoms.foldl Solver.addAtomStep acc).1.labels := by
  induction atoms generalizing acc with
  | nil => simpa using h
  | cons a atoms ih => exact ih _ ((addAtomStep_labels acc a k).2 (Or.inr h))

theorem addAtoms_mem_labels (atoms : List Int) (acc : Solver × Clause) (a : Int)
    (h : a ∈ atoms) : absInt a ∈ (atoms.foldl Solver.addAtomStep acc).1.labels := by
  induction atoms generalizing acc with
  | nil => simp at h
  | cons b atoms ih =>
    rcases List.mem_cons.1 h with h1 | h1
    · subst h1
      exact addAtoms_labels_mono atoms _ _ ((addAtomStep_labels acc a _).2 (Or.inl rfl))
    · exact ih _ h1

theorem addAtoms_find_some (atoms : List Int) (acc : Solver × Clause) (k : Int) (l : Literal)
    (h : mapFind k acc.1.literals = some l) :
    mapFind k (atoms.foldl Solver.addAtomStep acc).1.literals = some l := by
  induction atoms generalizing acc with
  | nil => simpa using h
  | cons a atoms ih => exact ih _ (addAtomStep_find_some acc a k l h)

theorem addClause_of_ne (s : Solver) (atoms : List Int) (hne : atoms ≠ []) :
    s.addClause atoms =
      { (atoms.foldl Solver.addAtomStep (s, Clause.new)).1 with
        clauses := (atoms.foldl Solver.addAtomStep (s, Clause.new)).1.clauses ++
          [(atoms.foldl Solver.addAtomStep (s, Clause.new)).2] } := by
  unfold Solver.addClause
  have : ¬ atoms.length = 0 := by
    intro h; exact hne (List.length_eq_zero.1 h)
  rw [if_neg this]

/-- C4: `addClause` with an empty atom sequence returns the solver unchanged: clause
collection, labels, literals, assignments, decision levels, antecedents, the
decision-level counter and `result` are what they were before the call. -/
theorem addClause_empty_noop (s : Solver) : s.addClause [] = s := by
  simp [Solver.addClause]

theorem map_atoms_recalculate (lits : List (Int × Literal)) (cs : List Clause) :
    (cs.map (fun c => c.recalculateStatus lits)).map Clause.atoms = cs.map Clause.atoms := by
  induction cs with
  | nil => rfl
  | cons c cs ih =>
    simp only [List.map_cons, ih, List.cons.injEq, and_true]
    unfold Clause.recalculateStatus
    split_ifs <;> rfl

theorem deassignLiteral_spec (s : Solver) (label : Int)
    (h : (mapFind label s.literals).isSome = true) :
    s.deassignLiteral label = some
      { s with
        literals := mapModify label (fun l => l.deassign) s.literals,
        clauses := s.clauses.map (fun c => (c.deassignAtom label).recalculateStatus
          (mapModify label (fun l => l.deassign) s.literals)) } := by
  unfold Solver.deassignLiteral
  obtain ⟨l, hl⟩ := Option.isSome_iff_exists.1 h
  rw [hl]

theorem mapFind_deassign_isSome (k label : Int) (m : List (Int × Literal)) :
    (mapFind k (mapModify label (fun l => l.deassign) m)).isSome = (mapFind k m).isSome := by
  by_cases hk : k = label
  · subst hk; rw [mapFind_mapModify_self]; cases mapFind k m <;> rfl
  · rw [mapFind_mapModify_ne k label _ m hk]

theorem mapFind_deassign_keeps (k label : Int) (m : List (Int × Literal)) (l : Literal)
    (h : mapFind k m = some l) (hl : l.assigned = false) :
    ∃ l1, mapFind k (mapModify label (fun l => l.deassign) m) = some l1 ∧
      l1.assigned = false := by
  by_cases hk : k = label
  · subst hk; rw [mapFind_mapModify_self, h]; exact ⟨l.deassign, rfl, rfl⟩
  · rw [mapFind_mapModify_ne k label _ m hk]; exact ⟨l, h, hl⟩

theorem mapFind_deassign_self (label : Int) (m : List (Int × Literal))
    (h : (mapFind label m).isSome = true) :
    ∃ l1, mapFind label (mapModify label (fun l => l.deassign) m) = some l1 ∧
      l1.assigned = false := by
  obtain ⟨l, hl⟩ := Option.isSome_iff_exists.1 h
  rw [mapFind_mapModify_self, hl]; exact ⟨l.deassign, rfl, rfl⟩

theorem backtrackScan_spec (L : Int) (entries : List (Int × Int)) (s : Solver)
    (td : List Int)
    (hwf : ∀ p ∈ entries, L < p.2 → (mapFind p.1 s.literals).isSome = true) :
    ∃ s1 td1, Solver.backtrackScan L entries (s, td) = some (s1, td1) ∧
      s1.decision_level = s.decision_level ∧
      s1.clauses.map Clause.atoms = s.clauses.map Clause.atoms ∧
      s1.labels = s.labels ∧ s1.decision_sources = s.decision_sources ∧
      s1.result = s.result ∧
      (∀ k, k ∈ td1 ↔ k ∈ td ∨ ∃ lvl, (k, lvl) ∈ entries ∧ L < lvl) ∧
      (∀ k, (mapFind k s1.literals).isSome = (mapFind k s.literals).isSome) ∧
      (∀ k l, mapFind k s.literals = some l → l.assigned = false →
        ∃ l1, mapFind k s1.literals = some l1 ∧ l1.assigned = false) ∧
      (∀ k lvl, (k, lvl) ∈ entries → L < lvl →
        ∃ l1, mapFind k s1.literals = some l1 ∧ l1.assigned = false) ∧
      (∀ k, (∀ lvl, (k, lvl) ∈ entries → lvl ≤ L) →
        mapFind k s1.literals = mapFind k s.literals) := by
  induction entries generalizing s td with
  | nil =>
    refine ⟨s, td, rfl, rfl, rfl, rfl, rfl, rfl, ?_, fun _ => rfl, ?_, ?_, fun _ _ => rfl⟩
    · intro k; simp
    · intro k l h hl; exact ⟨l, h, hl⟩
    · intro k lvl h; simp at h
  | cons p entries ih =>
    obtain ⟨k0, lvl0⟩ := p
    by_cases hlv : lvl0 > L
    · have hk0 : (mapFind k0 s.literals).isSome = true :=
        hwf (k0, lvl0) (List.mem_cons_self _ _) hlv
      have hd := deassignLiteral_spec s k0 hk0
      have hwf1 : ∀ p ∈ entries, L < p.2 → (mapFind p.1
          (mapModify k0 (fun l => l.deassign) s.literals)).isSome = true := by
        intro p hp hl
        rw [mapFind_deassign_isSome]
        exact hwf p (List.mem_cons_of_mem _ hp) hl
      obtain ⟨s1, td1, h1, h2, h3, h3a, h3b, h3c, h4, h5, h6, h7, h8⟩ := ih
        { s with
          literals := mapModify k0 (fun l => l.deassign) s.literals,
          clauses := s.clauses.map (fun c => (c.deassignAtom k0).recalculateStatus
            (mapModify k0 (fun l => l.deassign) s.literals)) }
        (setInsert k0 td) hwf1
      refine ⟨s1, td1, ?_, h2, ?_, h3a, h3b, h3c, ?_, ?_, ?_, ?_, ?_⟩
      · simp only [Solver.backtrackScan, if_pos hlv, hd]; exact h1
      · rw [h3]
        exact map_atoms_recalculate _ _
      · intro k
        rw [h4 k, mem_setInsert]
        constructor
        · rintro ((h | h) | ⟨lvl, h, hl⟩)
          · subst h; exact Or.inr ⟨lvl0, List.mem_cons_self _ _, hlv⟩
          · exact Or.inl h
          · exact Or.inr ⟨lvl, List.mem_cons_of_mem _ h, hl⟩
        · rintro (h | ⟨lvl, h, hl⟩)
          · exact Or.inl (Or.inr h)
          · rcases List.mem_cons.1 h with e | e
            · cases e; exact Or.inl (Or.inl rfl)
            · exact Or.inr ⟨lvl, e, hl⟩
      · intro k
        rw [h5 k]; exact mapFind_deassign_isSome k k0 s.literals
      · intro k l h hl
        obtain ⟨l1, e1, e2⟩ := mapFind_deassign_keeps k k0 s.literals l h hl
        exact h6 k l1 e1 e2
      · intro k lvl h hl
        rcases List.mem_cons.1 h with e | e
        · cases e
          obtain ⟨l1, e1, e2⟩ := mapFind_deassign_self k0 s.literals hk0
          exact h6 k0 l1 e1 e2
        · exact h7 k lvl e hl
      · intro k hk
        rw [h8 k (fun lvl h => hk lvl (List.mem_cons_of_mem _ h))]
        have hne : k ≠ k0 := by
          intro e; subst e
          have := hk lvl0 (List.mem_cons_self _ _)
          omega
        exact mapFind_mapModify_ne k k0 _ _ hne
    · obtain ⟨s1, td1, h1, h2, h3, h3a, h3b, h3c, h4, h5, h6, h7, h8⟩ := ih s td
        (fun p hp => hwf p (List.mem_cons_of_mem _ hp))
      refine ⟨s1, td1, ?_, h2, h3, h3a, h3b, h3c, ?_, h5, h6, ?_, ?_⟩
      · simp only [Solver.backtrackScan, if_neg hlv]; exact h1
      · intro k
        rw [h4 k]
        constructor
        · rintro (h | ⟨lvl, h, hl⟩)
          · exact Or.inl h
          · exact Or.inr ⟨lvl, List.mem_cons_of_mem _ h, hl⟩
        · rintro (h | ⟨lvl, h, hl⟩)
          · exact Or.inl h
          · rcases List.mem_cons.1 h with e | e
            · cases e; exact absurd hl hlv
            · exact Or.inr ⟨lvl, e, hl⟩
      · intro k lvl h hl
        rcases List.mem_cons.1 h with e | e
        · cases e; exact absurd hl hlv
        · exact h7 k lvl e hl
      · intro k hk
        exact h8 k (fun lvl h => hk lvl (List.mem_cons_of_mem _ h))

theorem mem_eraseAll (td : List Int) (dl : List (Int × Int)) (p : Int × Int) :
    p ∈ td.foldl (fun m k => mapErase k m) dl ↔ p ∈ dl ∧ p.1 ∉ td := by
  induction td generalizing dl with
  | nil => simp
  | cons k td ih =>
    simp only [List.foldl_cons]
    rw [ih]
    simp only [mapErase, List.mem_filter, decide_eq_true_eq, List.mem_cons, not_or]
    tauto

theorem backtrack_spec (s : Solver) (L : Int)
    (hwf : ∀ p ∈ s.decision_level, L < p.2 → (mapFind p.1 s.literals).isSome = true) :
    ∃ s1 td, Solver.backtrackScan L s.decision_level (s, []) = some (s1, td) ∧
      s.backtrack L = some
        { s1 with
          decision_level := td.foldl (fun m k => mapErase k m) s1.decision_level,
          clauses := s1.clauses.map (fun c => c.recalculateStatus s1.literals),
          current_decision_level := L } := by
  obtain ⟨s1, td, h1, _⟩ := backtrackScan_spec L s.decision_level s [] hwf
  refine ⟨s1, td, h1, ?_⟩
  unfold Solver.backtrack
  rw [h1]

/-- C6: on a solver in which every variable recorded at a level above `L` exists,
`backtrack(L)` returns, and afterwards no variable has a recorded level above `L`, every
variable whose recorded level was above `L` is unassigned and has no decision-level
entry, and the decision-level counter is `L`. -/
theorem backtrack_correct (s : Solver) (L : Int)
    (hwf : ∀ p ∈ s.decision_level, L < p.2 → (mapFind p.1 s.literals).isSome = true) :
    ∃ s', s.backtrack L = some s' ∧
      (∀ k lvl, mapFind k s'.decision_level = some lvl → lvl ≤ L) ∧
      (∀ k lvl, mapFind k s.decision_level = some lvl → L < lvl →
        mapFind k s'.decision_level = none ∧
        ∃ l, mapFind k s'.literals = some l ∧ l.assigned = false) ∧
      s'.current_decision_level = L := by
  obtain ⟨s1, td, h1, h2, _, _, _, _, h4, _, _, h7, _⟩ :=
    backtrackScan_spec L s.decision_level s [] hwf
  have hb : s.backtrack L = some
      { s1 with
        decision_level := td.foldl (fun m k => mapErase k m) s1.decision_level,
        clauses := s1.clauses.map (fun c => c.recalculateStatus s1.literals),
        current_decision_level := L } := by
    unfold Solver.backtrack
    rw [h1]
  refine ⟨_, hb, ?_, ?_, rfl⟩
  · intro k lvl hk
    have hm := (mem_eraseAll td s1.decision_level (k, lvl)).1 (mapFind_mem k lvl _ hk)
    by_contra hlt
    apply hm.2
    refine (h4 k).2 (Or.inr ⟨lvl, ?_, by omega⟩)
    rw [← h2]; exact hm.1
  · intro k lvl hk hlt
    have hin : (k, lvl) ∈ s.decision_level := mapFind_mem k lvl _ hk
    have hktd : k ∈ td := (h4 k).2 (Or.inr ⟨lvl, hin, hlt⟩)
    refine ⟨?_, h7 k lvl hin hlt⟩
    cases hf : mapFind k (td.foldl (fun m k => mapErase k m) s1.decision_level) with
    | none => rfl
    | some v =>
      have hm := (mem_eraseAll td s1.decision_level (k, v)).1 (mapFind_mem k v _ hf)
      exact absurd hktd hm.2

/-- Witness of C6: variables 1 and 2 recorded at levels 0 and 1, `backtrack(0)`. -/
theorem backtrack_correct_witness :
    ∃ s', (Solver.mk [⟨[1, 2], true, true⟩] [1, 2]
        [(1, ⟨1, true, true⟩), (2, ⟨2, true, false⟩)] [(1, 0), (2, 1)] 2 [] "TBD").backtrack 0
          = some s' ∧
      (∀ k lvl, mapFind k s'.decision_level = some lvl → lvl ≤ 0) ∧
      (∀ k lvl, mapFind k [((1 : Int), (0 : Int)), (2, 1)] = some lvl → 0 < lvl →
        mapFind k s'.decision_level = none ∧
        ∃ l, mapFind k s'.literals = some l ∧ l.assigned = false) ∧
      s'.current_decision_level = 0 :=
  backtrack_correct (Solver.mk [⟨[1, 2], true, true⟩] [1, 2]
    [(1, ⟨1, true, true⟩), (2, ⟨2, true, false⟩)] [(1, 0), (2, 1)] 2 [] "TBD") 0 (by decide)

/-! ## `makeDecision` -/

theorem firstUnassigned_spec (m : List (Int × Literal)) (ho : MapOrdered m)
    (hex : ∃ p ∈ m, p.2.assigned = false) :
    ∃ k l, Solver.firstUnassigned m = some k ∧ mapFind k m = some l ∧ l.assigned = false ∧
      ∀ j l1, mapFind j m = some l1 → l1.assigned = false → k ≤ j := by
  induction m with
  | nil => obtain ⟨p, hp, _⟩ := hex; simp at hp
  | cons q m ih =>
    obtain ⟨k1, l1⟩ := q
    have ho1 := List.pairwise_cons.1 ho
    by_cases h1 : l1.assigned = false
    · refine ⟨k1, l1, ?_, ?_, h1, ?_⟩
      · simp [Solver.firstUnassigned, h1]
      · simp [mapFind]
      · intro j l2 hj _
        rcases List.mem_cons.1 (mapFind_mem j l2 _ hj) with e | e
        · cases e; exact le_refl _
        · exact le_of_lt (ho1.1 (j, l2) e)
    · have hex1 : ∃ p ∈ m, p.2.assigned = false := by
        obtain ⟨p, hp, hpa⟩ := hex
        rcases List.mem_cons.1 hp with e | e
        · subst e; exact absurd hpa h1
        · exact ⟨p, e, hpa⟩
      obtain ⟨k, l, e1, e2, e3, e4⟩ := ih ho1.2 hex1
      have hlt : k1 < k := ho1.1 (k, l) (mapFind_mem k l m e2)
      have hne : ¬ k = k1 := by omega
      refine ⟨k, l, ?_, ?_, e3, ?_⟩
      · simp only [Solver.firstUnassigned]
        rw [if_neg (by simpa using h1)]
        exact e1
      · simp only [mapFind, if_neg hne]; exact e2
      · intro j l2 hj hl2
        simp only [mapFind] at hj
        split_ifs at hj with hjk
        · cases hj; exact absurd hl2 h1
        · exact e4 j l2 hj hl2

theorem makeDecision_of_first (s : Solver) (k : Int) (l : Literal)
    (e1 : Solver.firstUnassigned s.literals = some k) (e2 : mapFind k s.literals = some l) :
    s.makeDecision = some
      { s with
        literals := mapModify k (fun l => l.assign true) s.literals,
        clauses := s.clauses.map (fun c => (c.assignAtom k).recalculateStatus
          (mapModify k (fun l => l.assign true) s.literals)),
        decision_level := mapAssign k s.current_decision_level s.decision_level,
        current_decision_level := wrap32 (s.current_decision_level + 1) } := by
  simp only [Solver.makeDecision, e1, Solver.assignLiteral, e2]

/-- C7 (amended): on a solver with an unassigned variable, `makeDecision` returns and
assigns true to the unassigned variable with the smallest id (the first one in the
iteration order of the `literals` map), and changes the assignment of no other variable. -/
theorem makeDecision_smallest_unassigned (s : Solver) (ho : MapOrdered s.literals)
    (hex : ∃ p ∈ s.literals, p.2.assigned = false) :
    ∃ k s', Solver.firstUnassigned s.literals = some k ∧ s.makeDecision = some s' ∧
      (∃ l, mapFind k s.literals = some l ∧ l.assigned = false) ∧
      (∀ j l, mapFind j s.literals = some l → l.assigned = false → k ≤ j) ∧
      (∃ l1, mapFind k s'.literals = some l1 ∧ l1.assigned = true ∧ l1.value = true) ∧
      (∀ j, j ≠ k → mapFind j s'.literals = mapFind j s.literals) := by
  obtain ⟨k, l, e1, e2, e3, e4⟩ := firstUnassigned_spec s.literals ho hex
  refine ⟨k, _, e1, makeDecision_of_first s k l e1 e2, ⟨l, e2, e3⟩, e4, ?_, ?_⟩
  · refine ⟨l.assign true, ?_, rfl, rfl⟩
    simp only [mapFind_mapModify_self, e2, Option.map_some']
  · intro j hj
    exact mapFind_mapModify_ne j k _ _ hj

/-- Witness of C7 (amended): the solver after `addClause([2, 1])`. -/
theorem makeDecision_smallest_unassigned_witness :
    ∃ k s', Solver.firstUnassigned (Solver.build [[2, 1]]).literals = some k ∧
      (Solver.build [[2, 1]]).makeDecision = some s' ∧
      (∃ l, mapFind k (Solver.build [[2, 1]]).literals = some l ∧ l.assigned = false) ∧
      (∀ j l, mapFind j (Solver.build [[2, 1]]).literals = some l → l.assigned = false →
        k ≤ j) ∧
      (∃ l1, mapFind k s'.literals = some l1 ∧ l1.assigned = true ∧ l1.value = true) ∧
      (∀ j, j ≠ k → mapFind j s'.literals = mapFind j (Solver.build [[2, 1]]).literals) :=
  makeDecision_smallest_unassigned (Solver.build [[2, 1]])
    (by unfold MapOrdered; decide) (by decide)

/-- C7 (counterexample): after `addClause([2, 1])` variable 2 was created first, yet
`makeDecision` assigns variable 1 and leaves variable 2 unassigned. -/
theorem makeDecision_creation_order_counterexample :
    ((Solver.build [[2, 1]]).makeDecision).map
        (fun s' => (mapFind 1 s'.literals, mapFind 2 s'.literals))
      = some (some ⟨1, true, true⟩, some ⟨2, false, false⟩) := by
  decide

/-! ## `printAssignment` -/

theorem printEntry_eq_reportLine (p : Int × Literal) :
    Solver.printEntry p = reportLine p.1 (p.2.assigned && p.2.value) := by
  unfold Solver.printEntry reportLine
  cases p.2.assigned <;> cases p.2.value <;> rfl

/-- C9: `printAssignment` returns the concatenation, over the variable ids in strictly
increasing order, of the line `Literal <id> : <b>` with `<b>` = 1 exactly when the
variable is assigned true (0 when assigned false or unassigned); the ids listed are
exactly the existing variables and there is one line per variable. -/
theorem printAssignment_renders (s : Solver) (ho : MapOrdered s.literals) :
    s.printAssignment
        = String.join (s.variableIds.map (fun id => reportLine id (s.modelValue id))) ∧
      s.variableIds.Pairwise (fun a b => a < b) ∧
      (∀ id, id ∈ s.variableIds ↔ (mapFind id s.literals).isSome = true) ∧
      (s.variableIds.map (fun id => reportLine id (s.modelValue id))).length
        = s.literals.length := by
  refine ⟨?_, ?_, ?_, ?_⟩
  · have h1 : s.printAssignment = String.join (s.literals.map Solver.printEntry) := by
      simp [Solver.printAssignment, String.join, List.foldl_map]
    rw [h1, Solver.variableIds, List.map_map]
    congr 1
    apply List.map_congr_left
    intro p hp
    have hf : mapFind p.1 s.literals = some p.2 := mapFind_of_mem_ordered p.1 p.2 _ ho hp
    simp only [Function.comp, Solver.modelValue, hf]
    exact printEntry_eq_reportLine p
  · unfold Solver.variableIds
    rw [List.pairwise_map]
    exact ho
  · intro id
    unfold Solver.variableIds
    constructor
    · intro h
      obtain ⟨p, hp, e⟩ := List.mem_map.1 h
      subst e
      exact mapFind_isSome_of_mem p.1 p.2 _ hp
    · intro h
      obtain ⟨l, hl⟩ := Option.isSome_iff_exists.1 h
      exact List.mem_map.2 ⟨(id, l), mapFind_mem id l _ hl, rfl⟩
  · simp [Solver.variableIds]

/-- Witness of C9: variables 1 (true), 2 (unassigned) and 3 (false). -/
theorem printAssignment_renders_witness :
    (Solver.mk [] [1, 2, 3]
        [(1, ⟨1, true, true⟩), (2, ⟨2, false, false⟩), (3, ⟨3, true, false⟩)]
        [] 0 [] "SAT").printAssignment
      = "Literal 1 : 1\nLiteral 2 : 0\nLiteral 3 : 0\n" := by
  have h := (printAssignment_renders (Solver.mk [] [1, 2, 3]
        [(1, ⟨1, true, true⟩), (2, ⟨2, false, false⟩), (3, ⟨3, true, false⟩)]
        [] 0 [] "SAT") (by unfold MapOrdered; decide)).1
  rw [h]
  decide

/-! ## Clause status -/

theorem recalculateStatus_atoms (lits : List (Int × Literal)) (c : Clause) :
    (c.recalculateStatus lits).atoms = c.atoms := by
  unfold Clause.recalculateStatus
  split_ifs <;> rfl

theorem recalculateStatus_idem (lits : List (Int × Literal)) (c : Clause) :
    (c.recalculateStatus lits).recalculateStatus lits = c.recalculateStatus lits := by
  by_cases h1 : c.atoms.any (atomSatisfied lits) = true
  · simp [Clause.recalculateStatus, h1]
  · by_cases h2 : c.atoms.all (fun a => !atomUnassigned lits a) = true
    · simp [Clause.recalculateStatus, h1, h2]
    · simp [Clause.recalculateStatus, h1, h2]

theorem recalculateStatus_satisfied (lits : List (Int × Literal)) (c : Clause)
    (hv : (c.recalculateStatus lits).value = true) :
    c.atoms.any (atomSatisfied lits) = true := by
  unfold Clause.recalculateStatus at hv
  split_ifs at hv with h1 h2
  exact h1

theorem fresh_of_map_recalculate (s : Solver) (cs : List Clause)
    (h : s.clauses = cs.map (fun c => c.recalculateStatus s.literals)) : s.Fresh := by
  intro c hc
  rw [h] at hc
  obtain ⟨c0, _, e⟩ := List.mem_map.1 hc
  subst e
  exact recalculateStatus_idem _ _

theorem extends_refl (s : Solver) : s.Extends s := ⟨[], by simp⟩

theorem extends_of_eq (s1 s : Solver)
    (h : s1.clauses.map Clause.atoms = s.clauses.map Clause.atoms) : s1.Extends s :=
  ⟨[], by simp [h]⟩

theorem extends_trans (s2 s1 s : Solver) (h2 : s2.Extends s1) (h1 : s1.Extends s) :
    s2.Extends s := by
  obtain ⟨t2, e2⟩ := h2
  obtain ⟨t1, e1⟩ := h1
  exact ⟨t1 ++ t2, by rw [e2, e1, List.append_assoc]⟩

/-! ## The clause scan of a propagation -/

theorem scanClauses_atoms (lits : List (Int × Literal)) (u : Int) (cs : List Clause) :
    (Solver.scanClauses lits u cs).1.map Clause.atoms = cs.map Clause.atoms := by
  induction cs with
  | nil => rfl
  | cons c cs ih =>
    simp only [Solver.scanClauses, Clause.assignAtom]
    split_ifs
    · simp [recalculateStatus_atoms]
    · simp [recalculateStatus_atoms, ih]

theorem scanClauses_none (lits : List (Int × Literal)) (u : Int) (cs : List Clause)
    (h : (Solver.scanClauses lits u cs).2 = none) :
    (Solver.scanClauses lits u cs).1 = cs.map (fun c => c.recalculateStatus lits) := by
  induction cs with
  | nil => rfl
  | cons c cs ih =>
    simp only [Solver.scanClauses, Clause.assignAtom] at h ⊢
    split_ifs at h ⊢ with hc
    show _ :: _ = _
    rw [ih h]; rfl

/-! ## Conditional facts about `backtrack` -/

theorem backtrackScan_atoms (L : Int) (entries : List (Int × Int)) (s s1 : Solver)
    (td td1 : List Int) (h : Solver.backtrackScan L entries (s, td) = some (s1, td1)) :
    s1.clauses.map Clause.atoms = s.clauses.map Clause.atoms := by
  induction entries generalizing s td with
  | nil =>
    simp only [Solver.backtrackScan, Option.some.injEq, Prod.mk.injEq] at h
    rw [h.1]
  | cons p entries ih =>
    obtain ⟨k0, lvl0⟩ := p
    simp only [Solver.backtrackScan] at h
    split_ifs at h with hlv
    · cases hd : s.deassignLiteral k0 with
      | none => rw [hd] at h; cases h
      | some s0 =>
        rw [hd] at h
        simp only at h
        rw [ih s0 _ h]
        unfold Solver.deassignLiteral at hd
        split at hd
        · cases hd
        · cases hd
          exact map_atoms_recalculate _ _
    · exact ih s td h

theorem backtrack_fresh_atoms (s s1 : Solver) (L : Int) (h : s.backtrack L = some s1) :
    s1.Fresh ∧ s1.clauses.map Clause.atoms = s.clauses.map Clause.atoms := by
  unfold Solver.backtrack at h
  split at h
  · cases h
  · rename_i s0 td hs
    cases h
    refine ⟨fresh_of_map_recalculate _ s0.clauses rfl, ?_⟩
    simp only
    rw [map_atoms_recalculate]
    exact backtrackScan_atoms L _ s s0 [] td hs

/-! ## One iteration of `checkSAT` -/

theorem analyzeConflict_frame (s : Solver) (c : Clause) :
    (s.analyzeConflict c).2.clauses = s.clauses ∧
    (s.analyzeConflict c).2.literals = s.literals ∧
    (s.analyzeConflict c).2.labels = s.labels ∧
    (s.analyzeConflict c).2.decision_level = s.decision_level ∧
    (s.analyzeConflict c).2.current_decision_level = s.current_decision_level ∧
    (s.analyzeConflict c).2.result = s.result := by
  unfold Solver.analyzeConflict
  simp only
  split_ifs <;> simp

theorem propagate_running (s s1 : Solver) (idx : Int)
    (h : s.propagate idx = .running s1) : s1.Fresh ∧ s1.Extends s := by
  unfold Solver.propagate at h
  split at h
  · cases h
  · rename_i uc huc
    simp only at h
    split at h
    · cases h
    · split at h
      · rename_i hsc
        cases h
        refine ⟨fresh_of_map_recalculate _ s.clauses ?_, extends_of_eq _ _ ?_⟩
        · exact scanClauses_none _ _ _ hsc
        · exact scanClauses_atoms _ _ _
      · rename_i c hsc
        split at h
        · cases h
        · rename_i learnt s2 hac
          split at h
          · cases h
          · split at h
            · cases h
            · rename_i s3 hb
              cases h
              obtain ⟨hf, ha⟩ := backtrack_fresh_atoms _ _ _ hb
              refine ⟨hf, ⟨[learnt.atoms], ?_⟩⟩
              rw [ha]
              have hs2 := congrArg Prod.snd hac
              simp only at hs2
              simp only [List.map_append, List.map_cons, List.map_nil]
              rw [← hs2, (analyzeConflict_frame _ c).1]
              simp only [scanClauses_atoms]

theorem propagate_returned (s s1 : Solver) (idx : Int)
    (h : s.propagate idx = .returned s1) : s1.result = "UNSAT" ∧ s1.Extends s := by
  unfold Solver.propagate at h
  split at h
  · cases h
  · rename_i uc huc
    simp only at h
    split at h
    · cases h
    · split at h
      · cases h
      · rename_i c hsc
        split at h
        · rename_i s2 hac
          cases h
          refine ⟨rfl, extends_of_eq _ _ ?_⟩
          have hs2 := congrArg Prod.snd hac
          simp only at hs2
          simp only
          rw [← hs2, (analyzeConflict_frame _ c).1]
          simp only [scanClauses_atoms]
        · split at h
          · cases h
          · split at h <;> cases h

theorem makeDecision_fresh (s s1 : Solver) (h : s.makeDecision = some s1) :
    (s.Fresh → s1.Fresh) ∧ s1.clauses.map Clause.atoms = s.clauses.map Clause.atoms := by
  unfold Solver.makeDecision at h
  split at h
  · cases h; exact ⟨id, rfl⟩
  · rename_i k hk
    cases ha : s.assignLiteral k true with
    | none => rw [ha] at h; cases h
    | some s0 =>
      rw [ha] at h
      simp only [Option.some.injEq] at h
      subst h
      unfold Solver.assignLiteral at ha
      split at ha
      · cases ha
      · simp only [Option.some.injEq] at ha
        subst ha
        refine ⟨fun _ => fresh_of_map_recalculate _ s.clauses rfl, ?_⟩
        exact map_atoms_recalculate _ _

theorem checkSATStep_running (s s1 : Solver) (h : s.checkSATStep = .running s1) :
    (s.Fresh → s1.Fresh) ∧ s1.Extends s := by
  unfold Solver.checkSATStep at h
  simp only at h
  split_ifs at h with h1 h2
  · obtain ⟨hf, he⟩ := propagate_running s s1 _ h
    exact ⟨fun _ => hf, he⟩
  · split at h
    · cases h
    · rename_i s2 hm
      cases h
      obtain ⟨hf, he⟩ := makeDecision_fresh s s1 hm
      exact ⟨hf, extends_of_eq _ _ he⟩

theorem checkSATStep_returned (s s1 : Solver) (h : s.checkSATStep = .returned s1) :
    s1.Extends s ∧
    (s.Fresh → s1.result = "SAT" →
      ∀ c ∈ s1.clauses, c.atoms.any (atomSatisfied s1.literals) = true) := by
  unfold Solver.checkSATStep at h
  simp only at h
  split_ifs at h with h1 h2
  · obtain ⟨hr, he⟩ := propagate_returned s s1 _ h
    refine ⟨he, fun _ hsat => ?_⟩
    rw [hr] at hsat
    exact absurd hsat (by decide)
  · cases h
    refine ⟨extends_refl s, fun hf _ c hc => ?_⟩
    have hv : c.value = true := by
      have := List.all_eq_true.1 h2 c hc
      cases hcv : c.value
      · rw [hcv] at this; simp at this
      · rfl
    have hfc := hf c hc
    apply recalculateStatus_satisfied s.literals c
    show (Clause.recalculateStatus s.literals c).value = true
    rw [hfc]; exact hv
  · split at h <;> cases h

theorem checkSAT_running (n : Nat) (s s1 : Solver) (h : Solver.checkSAT n s = .running s1) :
    (s.Fresh → s1.Fresh) ∧ s1.Extends s := by
  induction n generalizing s with
  | zero =>
    simp only [Solver.checkSAT, Run.running.injEq] at h
    subst h
    exact ⟨id, extends_refl s⟩
  | succ n ih =>
    simp only [Solver.checkSAT] at h
    split at h
    · rename_i s0 hs
      obtain ⟨hf0, he0⟩ := checkSATStep_running s s0 hs
      obtain ⟨hf1, he1⟩ := ih s0 h
      exact ⟨fun hf => hf1 (hf0 hf), extends_trans _ _ _ he1 he0⟩
    · rename_i r hr
      exact absurd h (by intro e; exact hr s1 e)

theorem checkSAT_returned (n : Nat) (s s1 : Solver) (h : Solver.checkSAT n s = .returned s1) :
    s1.Extends s ∧
    (s.Fresh → s1.result = "SAT" →
      ∀ c ∈ s1.clauses, c.atoms.any (atomSatisfied s1.literals) = true) := by
  induction n generalizing s with
  | zero => simp [Solver.checkSAT] at h
  | succ n ih =>
    simp only [Solver.checkSAT] at h
    split at h
    · rename_i s0 hs
      obtain ⟨hf0, he0⟩ := checkSATStep_running s s0 hs
      obtain ⟨he1, hs1⟩ := ih s0 h
      exact ⟨extends_trans _ _ _ he1 he0, fun hf => hs1 (hf0 hf)⟩
    · exact checkSATStep_returned s s1 h

theorem checkSAT_add (m n : Nat) (s s1 : Solver) (h : Solver.checkSAT m s = .running s1) :
    Solver.checkSAT (m + n) s = Solver.checkSAT n s1 := by
  induction m generalizing s with
  | zero =>
    simp only [Solver.checkSAT, Run.running.injEq] at h
    subst h; simp
  | succ m ih =>
    simp only [Solver.checkSAT] at h
    rw [show m + 1 + n = (m + n) + 1 by omega]
    simp only [Solver.checkSAT]
    split at h
    · rename_i s0 hs
      exact ih s0 h
    · rename_i r hr
      exact absurd h (by intro e; exact hr s1 e)

/-! ## Solvers built by `addClause` calls -/

theorem mem_mapInsert {α : Type} (k : Int) (v : α) (m : List (Int × α)) (p : Int × α) :
    p ∈ mapInsert k v m ↔ p = (k, v) ∨ p ∈ m := by
  induction m with
  | nil => simp [mapInsert]
  | cons q m ih =>
    obtain ⟨k1, v1⟩ := q
    unfold mapInsert
    split_ifs
    · simp
    · simp only [List.mem_cons, ih]; tauto

theorem mem_mapEmplace {α : Type} (k : Int) (v : α) (m : List (Int × α)) (p : Int × α)
    (h : p ∈ mapEmplace k v m) : p = (k, v) ∨ p ∈ m := by
  unfold mapEmplace at h
  split at h
  · exact Or.inr h
  · exact (mem_mapInsert k v m p).1 h

theorem addAtoms_unassigned (atoms : List Int) (acc : Solver × Clause)
    (h : ∀ p ∈ acc.1.literals, p.2.assigned = false) :
    ∀ p ∈ (atoms.foldl Solver.addAtomStep acc).1.literals, p.2.assigned = false := by
  induction atoms generalizing acc with
  | nil => simpa using h
  | cons a atoms ih =>
    apply ih
    intro p hp
    unfold Solver.addAtomStep at hp
    simp only at hp
    split_ifs at hp
    · rcases mem_mapEmplace _ _ _ p hp with e | e
      · rw [e]; rfl
      · exact h p e
    · exact h p hp

theorem addClause_atoms (s : Solver) (atoms : List Int) :
    (s.addClause atoms).clauses.map Clause.atoms
      = s.clauses.map Clause.atoms ++ (if atoms = [] then [] else [atoms]) := by
  by_cases hne : atoms = []
  · subst hne; simp [Solver.addClause]
  · rw [addClause_of_ne s atoms hne, if_neg hne]
    have hf := addAtoms_frame atoms (s, Clause.new)
    simp only [List.map_append, List.map_cons, List.map_nil, hf.1, hf.2.2.2.2.2.1]
    simp [Clause.new]

theorem build_atoms_from (formula : List (List Int)) (s : Solver) :
    (formula.foldl Solver.addClause s).clauses.map Clause.atoms
      = s.clauses.map Clause.atoms ++ formula.filter (fun atoms => decide (atoms ≠ [])) := by
  induction formula generalizing s with
  | nil => simp
  | cons atoms formula ih =>
    simp only [List.foldl_cons]
    rw [ih, addClause_atoms]
    by_cases hne : atoms = []
    · subst hne; simp
    · simp [hne, List.filter_cons]

theorem build_atoms (formula : List (List Int)) :
    (Solver.build formula).clauses.map Clause.atoms
      = formula.filter (fun atoms => decide (atoms ≠ [])) := by
  unfold Solver.build
  rw [build_atoms_from]
  rfl

theorem addClause_initial (s : Solver) (atoms : List Int)
    (hl : ∀ p ∈ s.literals, p.2.assigned = false)
    (hc : ∀ c ∈ s.clauses, c.atoms ≠ [] ∧ c.assigned = false ∧ c.value = false) :
    (∀ p ∈ (s.addClause atoms).literals, p.2.assigned = false) ∧
    (∀ c ∈ (s.addClause atoms).clauses,
      c.atoms ≠ [] ∧ c.assigned = false ∧ c.value = false) := by
  by_cases hne : atoms = []
  · subst hne; rw [show s.addClause [] = s by simp [Solver.addClause]]; exact ⟨hl, hc⟩
  · rw [addClause_of_ne s atoms hne]
    have hf := addAtoms_frame atoms (s, Clause.new)
    refine ⟨addAtoms_unassigned atoms (s, Clause.new) hl, ?_⟩
    intro c hcm
    simp only [hf.1] at hcm
    rcases List.mem_append.1 hcm with e | e
    · exact hc c e
    · simp only [List.mem_singleton] at e
      subst e
      refine ⟨?_, ?_, ?_⟩
      · rw [hf.2.2.2.2.2.1]; simpa [Clause.new] using hne
      · rw [hf.2.2.2.2.2.2.1]; rfl
      · rw [hf.2.2.2.2.2.2.2]; rfl

theorem build_initial_from (formula : List (List Int)) (s : Solver)
    (hl : ∀ p ∈ s.literals, p.2.assigned = false)
    (hc : ∀ c ∈ s.clauses, c.atoms ≠ [] ∧ c.assigned = false ∧ c.value = false) :
    (∀ p ∈ (formula.foldl Solver.addClause s).literals, p.2.assigned = false) ∧
    (∀ c ∈ (formula.foldl Solver.addClause s).clauses,
      c.atoms ≠ [] ∧ c.assigned = false ∧ c.value = false) := by
  induction formula generalizing s with
  | nil => exact ⟨hl, hc⟩
  | cons atoms formula ih =>
    obtain ⟨h1, h2⟩ := addClause_initial s atoms hl hc
    exact ih _ h1 h2

theorem atomSatisfied_of_unassigned (lits : List (Int × Literal)) (a : Int)
    (hl : ∀ p ∈ lits, p.2.assigned = false) : atomSatisfied lits a = false := by
  unfold atomSatisfied
  cases hf : mapFind (absInt a) lits with
  | none => rfl
  | some l =>
    have := hl _ (mapFind_mem _ l lits hf)
    simp only at this
    simp [this]

theorem atomUnassigned_of_unassigned (lits : List (Int × Literal)) (a : Int)
    (hl : ∀ p ∈ lits, p.2.assigned = false) : atomUnassigned lits a = true := by
  unfold atomUnassigned
  cases hf : mapFind (absInt a) lits with
  | none => rfl
  | some l =>
    have := hl _ (mapFind_mem _ l lits hf)
    simp only at this
    simp [this]

theorem build_fresh (formula : List (List Int)) : (Solver.build formula).Fresh := by
  have hi : (∀ p ∈ (Solver.build formula).literals, p.2.assigned = false) ∧
      (∀ c ∈ (Solver.build formula).clauses,
        c.atoms ≠ [] ∧ c.assigned = false ∧ c.value = false) :=
    build_initial_from formula Solver.new
      (by intro p hp; simp [Solver.new] at hp) (by intro c hc; simp [Solver.new] at hc)
  obtain ⟨hl, hc⟩ := hi
  intro c hcm
  obtain ⟨hne, ha, hv⟩ := hc c hcm
  have h1 : c.atoms.any (atomSatisfied (Solver.build formula).literals) = false := by
    rw [List.any_eq_false]
    intro a _
    rw [atomSatisfied_of_unassigned _ a hl]
    exact Bool.false_ne_true
  have h2 : c.atoms.all (fun a => !atomUnassigned (Solver.build formula).literals a)
      = false := by
    cases hat : c.atoms with
    | nil => exact absurd hat hne
    | cons a t =>
      simp only [List.all_cons, atomUnassigned_of_unassigned _ a hl]
      simp
  unfold Clause.recalculateStatus
  rw [h1, h2]
  simp only [Bool.false_eq_true, if_false]
  cases c
  simp only at ha hv
  subst ha; subst hv
  rfl

theorem atomHolds_of_satisfied (s : Solver) (a : Int)
    (h : atomSatisfied s.literals a = true) : s.atomHolds a := by
  unfold atomSatisfied at h
  unfold Solver.atomHolds Solver.modelValue
  cases hf : mapFind (absInt a) s.literals with
  | none => rw [hf] at h; cases h
  | some l =>
    rw [hf] at h
    simp only [Bool.and_eq_true, Bool.or_eq_true, decide_eq_true_eq,
      Bool.not_eq_true'] at h
    obtain ⟨ha, hp | hn⟩ := h
    · left; exact ⟨hp.1, by simp [ha, hp.2]⟩
    · right; exact ⟨hn.1, by simp [ha, hn.2]⟩

/-! ## Soundness of a SAT verdict and growth of the clause collection -/

/-- C1: for the solver built from `formula` by `addClause` calls, if `checkSAT` returns
with `result = "SAT"`, every added clause (every non-empty atom sequence of `formula`)
has an atom whose polarity matches the final value of its variable, an unassigned
variable reading as false as in `printAssignment`. -/
theorem checkSAT_sound (formula : List (List Int)) (n : Nat) (s1 : Solver)
    (hrun : Solver.checkSAT n (Solver.build formula) = .returned s1)
    (hsat : s1.result = "SAT") :
    ∀ atoms ∈ formula, atoms ≠ [] → ∃ a ∈ atoms, s1.atomHolds a := by
  intro atoms hin hne
  obtain ⟨⟨t, he⟩, hs⟩ := checkSAT_returned n _ s1 hrun
  have hall := hs (build_fresh formula) hsat
  rw [build_atoms] at he
  have hmem : atoms ∈ s1.clauses.map Clause.atoms := by
    rw [he]
    apply List.mem_append_left
    exact List.mem_filter.2 ⟨hin, by simpa using hne⟩
  obtain ⟨c, hc, hca⟩ := List.mem_map.1 hmem
  obtain ⟨a, ha, hsa⟩ := List.any_eq_true.1 (hall c hc)
  rw [hca] at ha
  exact ⟨a, ha, atomHolds_of_satisfied s1 a hsa⟩

/-- Witness of C1: the formula `[1, 2], [-1, 2]` of scenario 3 is reported SAT after three
loop iterations, and both clauses hold under the final values. -/
theorem checkSAT_sound_witness :
    (∃ a ∈ [1, 2],
      (Solver.mk [⟨[1, 2], true, true⟩, ⟨[-1, 2], true, true⟩] [1, 2]
        [(1, ⟨1, true, true⟩), (2, ⟨2, true, true⟩)] [(1, 0)] 1 [(-1, []), (2, [])]
        "SAT").atomHolds a) ∧
    (∃ a ∈ [-1, 2],
      (Solver.mk [⟨[1, 2], true, true⟩, ⟨[-1, 2], true, true⟩] [1, 2]
        [(1, ⟨1, true, true⟩), (2, ⟨2, true, true⟩)] [(1, 0)] 1 [(-1, []), (2, [])]
        "SAT").atomHolds a) :=
  ⟨checkSAT_sound [[1, 2], [-1, 2]] 3
      (Solver.mk [⟨[1, 2], true, true⟩, ⟨[-1, 2], true, true⟩] [1, 2]
        [(1, ⟨1, true, true⟩), (2, ⟨2, true, true⟩)] [(1, 0)] 1 [(-1, []), (2, [])] "SAT")
      (by decide) (by decide) [1, 2] (by decide) (by decide),
    checkSAT_sound [[1, 2], [-1, 2]] 3
      (Solver.mk [⟨[1, 2], true, true⟩, ⟨[-1, 2], true, true⟩] [1, 2]
        [(1, ⟨1, true, true⟩), (2, ⟨2, true, true⟩)] [(1, 0)] 1 [(-1, []), (2, [])] "SAT")
      (by decide) (by decide) [-1, 2] (by decide) (by decide)⟩

/-- C10: for the solver built from `formula`, the clause collection at any point `s1`
of a `checkSAT` run starts with the added clauses (same atoms, same order); at any later
point `s2`, or at the return, it starts with the whole collection of `s1`; its length
has not decreased. -/
theorem checkSAT_clauses_grow (formula : List (List Int)) (m n : Nat) (s1 s2 : Solver)
    (h1 : Solver.checkSAT m (Solver.build formula) = .running s1)
    (h2 : Solver.checkSAT (m + n) (Solver.build formula) = .running s2 ∨
      Solver.checkSAT (m + n) (Solver.build formula) = .returned s2) :
    (∃ t, s1.clauses.map Clause.atoms
      = formula.filter (fun atoms => decide (atoms ≠ [])) ++ t) ∧
    (∃ t, s2.clauses.map Clause.atoms = s1.clauses.map Clause.atoms ++ t) ∧
    (∃ t, s2.clauses.map Clause.atoms
      = formula.filter (fun atoms => decide (atoms ≠ [])) ++ t) ∧
    s1.clauses.length ≤ s2.clauses.length := by
  have e1 : s1.Extends (Solver.build formula) := (checkSAT_running m _ s1 h1).2
  have e2 : s2.Extends s1 := by
    rw [checkSAT_add m n _ s1 h1] at h2
    rcases h2 with h | h
    · exact (checkSAT_running n s1 s2 h).2
    · exact (checkSAT_returned n s1 s2 h).1
  have e3 := extends_trans _ _ _ e2 e1
  unfold Solver.Extends at e1 e3
  rw [build_atoms] at e1 e3
  refine ⟨e1, e2, e3, ?_⟩
  obtain ⟨t, ht⟩ := e2
  have := congrArg List.length ht
  simp only [List.length_map, List.length_append] at this
  omega

/-- Witness of C10: the run on `[-1, 2], [-1, -2]` after one iteration and at its return. -/
theorem checkSAT_clauses_grow_witness :
    (∃ t, (Solver.mk [⟨[-1, 2], false, false⟩, ⟨[-1, -2], false, false⟩] [1, 2]
        [(1, ⟨1, true, true⟩), (2, ⟨2, false, false⟩)] [(1, 0)] 1 [] "TBD").clauses.map
          Clause.atoms
      = [[-1, 2], [-1, -2]].filter (fun atoms => decide (atoms ≠ [])) ++ t) ∧
    (∃ t, (Solver.mk [⟨[-1, 2], true, true⟩, ⟨[-1, -2], true, false⟩] [1, 2]
        [(1, ⟨1, true, true⟩), (2, ⟨2, true, true⟩)] [(1, 0)] 1 [(-1, []), (1, []), (2, [])]
        "UNSAT").clauses.map Clause.atoms
      = (Solver.mk [⟨[-1, 2], false, false⟩, ⟨[-1, -2], false, false⟩] [1, 2]
        [(1, ⟨1, true, true⟩), (2, ⟨2, false, false⟩)] [(1, 0)] 1 [] "TBD").clauses.map
          Clause.atoms ++ t) ∧
    (∃ t, (Solver.mk [⟨[-1, 2], true, true⟩, ⟨[-1, -2], true, false⟩] [1, 2]
        [(1, ⟨1, true, true⟩), (2, ⟨2, true, true⟩)] [(1, 0)] 1 [(-1, []), (1, []), (2, [])]
        "UNSAT").clauses.map Clause.atoms
      = [[-1, 2], [-1, -2]].filter (fun atoms => decide (atoms ≠ [])) ++ t) ∧
    (Solver.mk [⟨[-1, 2], false, false⟩, ⟨[-1, -2], false, false⟩] [1, 2]
        [(1, ⟨1, true, true⟩), (2, ⟨2, false, false⟩)] [(1, 0)] 1 [] "TBD").clauses.length
      ≤ (Solver.mk [⟨[-1, 2], true, true⟩, ⟨[-1, -2], true, false⟩] [1, 2]
        [(1, ⟨1, true, true⟩), (2, ⟨2, true, true⟩)] [(1, 0)] 1 [(-1, []), (1, []), (2, [])]
        "UNSAT").clauses.length :=
  checkSAT_clauses_grow [[-1, 2], [-1, -2]] 1 1 _ _ (by decide) (Or.inr (by decide))

/-! ## Runs on which the verdict, the termination or the trail go wrong -/

/-- C2 (failing input): on `addClause([-1, 2]); addClause([-1, -2])` the brute-force
verdict is satisfiable (every variable false is a model), yet `checkSAT` decides
variable 1 = true, propagates variable 2 = true, meets the falsified clause `[-1, -2]`
and returns with `result = "UNSAT"`. -/
theorem checkSAT_unsat_on_satisfiable :
    Solver.checkSAT 2 (Solver.build [[-1, 2], [-1, -2]])
      = .returned (Solver.mk [⟨[-1, 2], true, true⟩, ⟨[-1, -2], true, false⟩] [1, 2]
          [(1, ⟨1, true, true⟩), (2, ⟨2, true, true⟩)] [(1, 0)] 1
          [(-1, []), (1, []), (2, [])] "UNSAT") ∧
    bruteForceSAT [[-1, 2], [-1, -2]] = true ∧
    evalFormula (fun _ => false) [[-1, 2], [-1, -2]] = true := by
  decide

/-- C3 (failing input): on `addClause([-1, -1])` the first iteration of `checkSAT`
decides variable 1 = true, which falsifies the clause; from then on no clause is unit,
not every clause is satisfied and `makeDecision` finds nothing to assign, so every
further iteration leaves the state unchanged: `checkSAT` never returns and `result`
stays `"TBD"`. -/
theorem checkSAT_never_returns (n : Nat) :
    Solver.checkSAT (n + 1) (Solver.build [[-1, -1]])
      = .running (Solver.mk [⟨[-1, -1], true, false⟩] [1] [(1, ⟨1, true, true⟩)]
          [(1, 0)] 1 [] "TBD") := by
  induction n with
  | zero => decide
  | succ n ih =>
    rw [checkSAT_add (n + 1) 1 _ _ ih]
    decide

/-- C8 (failing input): on `addClause([1])` the propagation of the unit clause assigns
variable 1 = true and `checkSAT` returns SAT, with variable 1 assigned and no entry for
it in `decision_level`. -/
theorem checkSAT_propagation_unrecorded :
    ∃ s1, Solver.checkSAT 2 (Solver.build [[1]]) = .returned s1 ∧
      s1.result = "SAT" ∧
      mapFind 1 s1.literals = some ⟨1, true, true⟩ ∧
      mapFind 1 s1.decision_level = none :=
  ⟨Solver.mk [⟨[1], true, true⟩] [1] [(1, ⟨1, true, true⟩)] [] 0 [] "SAT",
    by decide, by decide, by decide, by decide⟩

/-! ## The empty formula -/

theorem build_replicate_nil (k : Nat) (s : Solver) :
    (List.replicate k ([] : List Int)).foldl Solver.addClause s = s := by
  induction k with
  | zero => rfl
  | succ k ih =>
    simp only [List.replicate_succ, List.foldl_cons]
    rw [show s.addClause [] = s by simp [Solver.addClause]]
    exact ih

/-- C11: on a fresh solver on which `addClause` was never called, or called any number
`k` of times with an empty atom sequence, the first iteration of `checkSAT` returns with
`result = "SAT"`, and `printAssignment` then returns the empty string. -/
theorem checkSAT_empty_formula (k : Nat) :
    ∃ s1, Solver.checkSAT 1 (Solver.build (List.replicate k [])) = .returned s1 ∧
      s1.result = "SAT" ∧ s1.printAssignment = "" := by
  unfold Solver.build
  rw [build_replicate_nil]
  exact ⟨{ Solver.new with result := "SAT" }, by decide, by decide, by decide⟩

/-! ## `getUnitClause` -/

theorem getUnitClauseFrom_spec (lits : List (Int × Literal)) (cs : List Clause) (i : Nat) :
    (Solver.getUnitClauseFrom lits cs i = -1 ∧ ∀ c ∈ cs, c.isUnitClause lits = false) ∨
    (∃ (j : Nat) (c : Clause), Solver.getUnitClauseFrom lits cs i = ((i + j : Nat) : Int) ∧
      cs.get? j = some c ∧ c.isUnitClause lits = true ∧
      ∀ (j1 : Nat) (c1 : Clause), j1 < j → cs.get? j1 = some c1 →
        c1.isUnitClause lits = false) := by
  induction cs generalizing i with
  | nil => left; exact ⟨rfl, by simp⟩
  | cons c cs ih =>
    by_cases hu : c.isUnitClause lits = true
    · right
      refine ⟨0, c, ?_, rfl, hu, ?_⟩
      · simp [Solver.getUnitClauseFrom, hu]
      · intro j1 c1 hj; omega
    · have hu1 : c.isUnitClause lits = false := by simpa using hu
      have hstep : Solver.getUnitClauseFrom lits (c :: cs) i
          = Solver.getUnitClauseFrom lits cs (i + 1) := by
        simp [Solver.getUnitClauseFrom, hu1]
      rcases ih (i + 1) with ⟨h1, h2⟩ | ⟨j, c0, h1, h2, h3, h4⟩
      · left
        refine ⟨by rw [hstep, h1], ?_⟩
        intro c1 hc1
        rcases List.mem_cons.1 hc1 with e | e
        · rw [e]; exact hu1
        · exact h2 c1 e
      · right
        refine ⟨j + 1, c0, ?_, ?_, h3, ?_⟩
        · rw [hstep, h1]; congr 1; omega
        · simpa using h2
        · intro j1 c1 hj hg
          cases j1 with
          | zero =>
            simp only [List.get?_cons_zero, Option.some.injEq] at hg
            rw [← hg]; exact hu1
          | succ j1 =>
            simp only [List.get?_cons_succ] at hg
            exact h4 j1 c1 (by omega) hg

/-- C15: `getUnitClause` returns -1 exactly when no clause of the collection is in unit
status; otherwise it returns an index `i` of the collection such that clause `i` is in
unit status and no clause at a smaller index is. -/
theorem getUnitClause_first_unit (s : Solver) :
    (s.getUnitClause = -1 ↔ ∀ c ∈ s.clauses, c.isUnitClause s.literals = false) ∧
    (s.getUnitClause = -1 ∨
      ∃ (i : Nat) (c : Clause), s.getUnitClause = (i : Int) ∧ s.clauses.get? i = some c ∧
        c.isUnitClause s.literals = true ∧
        ∀ (j : Nat) (c1 : Clause), j < i → s.clauses.get? j = some c1 →
          c1.isUnitClause s.literals = false) := by
  unfold Solver.getUnitClause
  rcases getUnitClauseFrom_spec s.literals s.clauses 0 with
    ⟨h1, h2⟩ | ⟨j, c0, h1, h2, h3, h4⟩
  · exact ⟨⟨fun _ => h2, fun _ => h1⟩, Or.inl h1⟩
  · have hj : Solver.getUnitClauseFrom s.literals s.clauses 0 = (j : Int) := by
      rw [h1]; congr 1; omega
    refine ⟨⟨?_, ?_⟩, Or.inr ⟨j, c0, hj, h2, h3, h4⟩⟩
    · intro h; rw [hj] at h; omega
    · intro h
      have := h c0 (List.get?_mem h2)
      rw [h3] at this; cases this

/-! ## `analyzeConflict` -/

theorem setInsert_sorted (x : Int) (ys : List Int) (h : ys.Pairwise (fun a b => a < b)) :
    (setInsert x ys).Pairwise (fun a b => a < b) := by
  induction ys with
  | nil => simp [setInsert]
  | cons y ys ih =>
    have h1 := List.pairwise_cons.1 h
    unfold setInsert
    split_ifs with hlt heq
    · refine List.pairwise_cons.2 ⟨?_, h⟩
      intro a ha
      rcases List.mem_cons.1 ha with e | e
      · rw [e]; exact hlt
      · exact lt_trans hlt (h1.1 a e)
    · exact h
    · refine List.pairwise_cons.2 ⟨?_, ih h1.2⟩
      intro a ha
      rcases (mem_setInsert x a ys).1 ha with e | e
      · rw [e]; omega
      · exact h1.1 a e

theorem mem_setInsertAll (xs ys : List Int) (a : Int) :
    a ∈ setInsertAll xs ys ↔ a ∈ xs ∨ a ∈ ys := by
  unfold setInsertAll
  induction ys generalizing xs with
  | nil => simp
  | cons y ys ih =>
    simp only [List.foldl_cons, ih, mem_setInsert, List.mem_cons]
    tauto

theorem setInsertAll_sorted (xs ys : List Int) (h : xs.Pairwise (fun a b => a < b)) :
    (setInsertAll xs ys).Pairwise (fun a b => a < b) := by
  unfold setInsertAll
  induction ys generalizing xs with
  | nil => simpa using h
  | cons y ys ih => exact ih _ (setInsert_sorted y xs h)

theorem mapFind_mapEmplace_ne {α : Type} (j k : Int) (v : α) (m : List (Int × α))
    (hne : j ≠ k) : mapFind j (mapEmplace k v m) = mapFind j m := by
  unfold mapEmplace
  split
  · rfl
  · exact mapFind_mapInsert_ne j k v m hne

theorem getD_mapEmplace_nil (j k : Int) (m : List (Int × List Int)) :
    (mapFind j (mapEmplace k [] m)).getD [] = (mapFind j m).getD [] := by
  by_cases hjk : j = k
  · subst hjk
    unfold mapEmplace
    cases hf : mapFind j m with
    | some x => simp [hf]
    | none => simp [mapFind_mapInsert_self j [] m hf]
  · rw [mapFind_mapEmplace_ne j k [] m hjk]

theorem collectSources_spec (atoms : List Int) (u : List Int) (ds : List (Int × List Int))
    (hu : u.Pairwise (fun a b => a < b)) :
    (atoms.foldl Solver.collectSources (u, ds)).1.Pairwise (fun a b => a < b) ∧
    (∀ x, x ∈ (atoms.foldl Solver.collectSources (u, ds)).1 ↔
      x ∈ u ∨ ∃ a ∈ atoms, x ∈ (mapFind (absInt a) ds).getD []) ∧
    (∀ j, (mapFind j (atoms.foldl Solver.collectSources (u, ds)).2).getD []
      = (mapFind j ds).getD []) := by
  induction atoms generalizing u ds with
  | nil => exact ⟨hu, by simp, fun _ => rfl⟩
  | cons a atoms ih =>
    simp only [List.foldl_cons, Solver.collectSources]
    obtain ⟨h1, h2, h3⟩ := ih
      (setInsertAll u ((mapFind (absInt a) (mapEmplace (absInt a) [] ds)).getD []))
      (mapEmplace (absInt a) [] ds) (setInsertAll_sorted _ _ hu)
    refine ⟨h1, ?_, ?_⟩
    · intro x
      rw [h2 x, mem_setInsertAll]
      simp only [getD_mapEmplace_nil, List.mem_cons, exists_eq_or_imp]
      tauto
    · intro j
      rw [h3 j, getD_mapEmplace_nil]

theorem mapFind_mapErase_ne {α : Type} (j k : Int) (m : List (Int × α)) (hne : j ≠ k) :
    mapFind j (mapErase k m) = mapFind j m := by
  unfold mapErase
  induction m with
  | nil => rfl
  | cons p m ih =>
    obtain ⟨k1, v1⟩ := p
    by_cases hk : k1 = k
    · subst hk
      simp only [List.filter_cons, ne_eq, not_true_eq_false, decide_False,
        Bool.false_eq_true, if_false, mapFind, if_neg hne]
      exact ih
    · have hd : decide ((k1, v1).1 ≠ k) = true := by simpa using hk
      simp only [List.filter_cons, hd, if_true, mapFind]
      split_ifs
      · rfl
      · exact ih

theorem mapFind_eraseAll (td : List Int) (dl : List (Int × Int)) (k : Int) (h : k ∉ td) :
    mapFind k (td.foldl (fun m k => mapErase k m) dl) = mapFind k dl := by
  induction td generalizing dl with
  | nil => rfl
  | cons k1 td ih =>
    simp only [List.foldl_cons]
    rw [ih _ (fun hk => h (List.mem_cons_of_mem _ hk))]
    exact mapFind_mapErase_ne k k1 dl (fun e => h (by rw [e]; exact List.mem_cons_self _ _))

/-- C17: on a solver in which every variable recorded at a level above `L` exists,
`backtrack(L)` returns with the same clauses (same atoms, same order, none deleted), and
every variable whose recorded level is at most `L` keeps its recorded level and its
literal, hence its assigned value. -/
theorem backtrack_frame (s : Solver) (L : Int)
    (hwf : ∀ p ∈ s.decision_level, L < p.2 → (mapFind p.1 s.literals).isSome = true)
    (ho : MapOrdered s.decision_level) :
    ∃ s', s.backtrack L = some s' ∧
      s'.clauses.map Clause.atoms = s.clauses.map Clause.atoms ∧
      (∀ k lvl, mapFind k s.decision_level = some lvl → lvl ≤ L →
        mapFind k s'.decision_level = some lvl ∧
        mapFind k s'.literals = mapFind k s.literals) := by
  obtain ⟨s1, td, h1, h2, h3, _, _, _, h4, _, _, _, h8⟩ :=
    backtrackScan_spec L s.decision_level s [] hwf
  have hb : s.backtrack L = some
      { s1 with
        decision_level := td.foldl (fun m k => mapErase k m) s1.decision_level,
        clauses := s1.clauses.map (fun c => c.recalculateStatus s1.literals),
        current_decision_level := L } := by
    unfold Solver.backtrack
    rw [h1]
  refine ⟨_, hb, ?_, ?_⟩
  · simp only
    rw [map_atoms_recalculate, h3]
  · intro k lvl hk hle
    have hall : ∀ lvl1, (k, lvl1) ∈ s.decision_level → lvl1 ≤ L := by
      intro lvl1 hm
      have := mapFind_of_mem_ordered k lvl1 _ ho hm
      rw [hk] at this
      cases this; exact hle
    have hktd : k ∉ td := by
      intro hin
      rcases (h4 k).1 hin with e | ⟨lvl1, hm, hlt⟩
      · cases e
      · have := hall lvl1 hm; omega
    refine ⟨?_, h8 k hall⟩
    simp only
    rw [mapFind_eraseAll td _ k hktd, h2]
    exact hk

/-- Witness of C17: variables 1 and 2 recorded at levels 0 and 1, `backtrack(0)`. -/
theorem backtrack_frame_witness :
    ∃ s', (Solver.mk [⟨[1, 2], true, true⟩] [1, 2]
        [(1, ⟨1, true, true⟩), (2, ⟨2, true, false⟩)] [(1, 0), (2, 1)] 2 [] "TBD").backtrack 0
          = some s' ∧
      s'.clauses.map Clause.atoms = [[1, 2]] ∧
      (∀ k lvl, mapFind k [((1 : Int), (0 : Int)), (2, 1)] = some lvl → lvl ≤ 0 →
        mapFind k s'.decision_level = some lvl ∧
        mapFind k s'.literals
          = mapFind k [(1, (⟨1, true, true⟩ : Literal)), (2, ⟨2, true, false⟩)]) :=
  backtrack_frame (Solver.mk [⟨[1, 2], true, true⟩] [1, 2]
    [(1, ⟨1, true, true⟩), (2, ⟨2, true, false⟩)] [(1, 0), (2, 1)] 2 [] "TBD") 0
    (by decide) (by unfold MapOrdered; decide)

/-! ## Built solvers are closed and hold no antecedents -/

theorem mapFind_mapEmplace_isSome {α : Type} (j k : Int) (v : α) (m : List (Int × α)) :
    (mapFind j (mapEmplace k v m)).isSome = true ↔ j = k ∨ (mapFind j m).isSome = true := by
  by_cases hjk : j = k
  · subst hjk
    simp [mapFind_mapEmplace_self]
  · rw [mapFind_mapEmplace_ne j k v m hjk]
    simp [hjk]

theorem mapFind_mapModify_isSome {α : Type} (j k : Int) (f : α → α) (m : List (Int × α)) :
    (mapFind j (mapModify k f m)).isSome = (mapFind j m).isSome := by
  by_cases hjk : j = k
  · subst hjk; rw [mapFind_mapModify_self]; cases mapFind j m <;> rfl
  · rw [mapFind_mapModify_ne j k f m hjk]

theorem addAtomStep_labels_iff (acc : Solver × Clause) (a : Int)
    (h : ∀ k, k ∈ acc.1.labels ↔ (mapFind k acc.1.literals).isSome = true) :
    ∀ k, k ∈ (Solver.addAtomStep acc a).1.labels ↔
      (mapFind k (Solver.addAtomStep acc a).1.literals).isSome = true := by
  intro k
  unfold Solver.addAtomStep
  simp only
  split_ifs
  · simp only [mem_setInsert, mapFind_mapEmplace_isSome, h k]
  · exact h k

theorem addAtoms_labels_iff (atoms : List Int) (acc : Solver × Clause)
    (h : ∀ k, k ∈ acc.1.labels ↔ (mapFind k acc.1.literals).isSome = true) :
    ∀ k, k ∈ (atoms.foldl Solver.addAtomStep acc).1.labels ↔
      (mapFind k (atoms.foldl Solver.addAtomStep acc).1.literals).isSome = true := by
  induction atoms generalizing acc with
  | nil => simpa using h
  | cons a atoms ih => exact ih _ (addAtomStep_labels_iff acc a h)

theorem addAtoms_find_isSome (atoms : List Int) (acc : Solver × Clause) (k : Int)
    (h : (mapFind k acc.1.literals).isSome = true) :
    (mapFind k (atoms.foldl Solver.addAtomStep acc).1.literals).isSome = true := by
  obtain ⟨l, hl⟩ := Option.isSome_iff_exists.1 h
  rw [addAtoms_find_some atoms acc k l hl]; rfl

theorem addClause_closed (s : Solver) (atoms : List Int) (hc : s.Closed) :
    (s.addClause atoms).Closed := by
  by_cases hne : atoms = []
  · subst hne; rw [show s.addClause [] = s by simp [Solver.addClause]]; exact hc
  · rw [addClause_of_ne s atoms hne]
    have hf := addAtoms_frame atoms (s, Clause.new)
    have hl := addAtoms_labels_iff atoms (s, Clause.new) hc.1
    refine ⟨hl, ?_⟩
    intro c hcm a ha
    simp only [hf.1] at hcm
    rcases List.mem_append.1 hcm with e | e
    · exact addAtoms_find_isSome atoms (s, Clause.new) _ (hc.2 c e a ha)
    · simp only [List.mem_singleton] at e
      subst e
      rw [hf.2.2.2.2.2.1] at ha
      simp only [Clause.new, List.nil_append] at ha
      exact (hl _).1 (addAtoms_mem_labels atoms (s, Clause.new) a ha)

theorem addClause_sources (s : Solver) (atoms : List Int) :
    (s.addClause atoms).decision_sources = s.decision_sources := by
  by_cases hne : atoms = []
  · subst hne; simp [Solver.addClause]
  · rw [addClause_of_ne s atoms hne]
    exact (addAtoms_frame atoms (s, Clause.new)).2.2.2.1

theorem build_closed_from (formula : List (List Int)) (s : Solver) (hc : s.Closed)
    (hn : s.NoSources) :
    (formula.foldl Solver.addClause s).Closed ∧
    (formula.foldl Solver.addClause s).NoSources := by
  induction formula generalizing s with
  | nil => exact ⟨hc, hn⟩
  | cons atoms formula ih =>
    apply ih _ (addClause_closed s atoms hc)
    unfold Solver.NoSources
    rw [addClause_sources]
    exact hn

theorem build_closed (formula : List (List Int)) :
    (Solver.build formula).Closed ∧ (Solver.build formula).NoSources := by
  apply build_closed_from
  · refine ⟨?_, ?_⟩
    · intro k; simp [Solver.new, mapFind]
    · intro c hc; simp [Solver.new] at hc
  · intro p hp; simp [Solver.new] at hp

/-! ## Antecedent sets stay empty -/

theorem getD_of_noSources (m : List (Int × List Int)) (h : ∀ p ∈ m, p.2 = []) (k : Int) :
    (mapFind k m).getD [] = [] := by
  cases hf : mapFind k m with
  | none => rfl
  | some v =>
    have := h _ (mapFind_mem k v m hf)
    simpa using this

theorem mem_mapModify {α : Type} (k : Int) (f : α → α) (m : List (Int × α)) (p : Int × α)
    (h : p ∈ mapModify k f m) : p ∈ m ∨ ∃ v, p = (k, f v) := by
  induction m with
  | nil => simp [mapModify] at h
  | cons q m ih =>
    obtain ⟨k1, v1⟩ := q
    unfold mapModify at h
    split_ifs at h with hk
    · rcases List.mem_cons.1 h with e | e
      · right; exact ⟨v1, by rw [e, hk]⟩
      · left; exact List.mem_cons_of_mem _ e
    · rcases List.mem_cons.1 h with e | e
      · left; rw [e]; exact List.mem_cons_self _ _
      · rcases ih e with e1 | e1
        · left; exact List.mem_cons_of_mem _ e1
        · right; exact e1

theorem mem_mapAssign {α : Type} (k : Int) (v : α) (m : List (Int × α)) (p : Int × α)
    (h : p ∈ mapAssign k v m) : p ∈ m ∨ p = (k, v) := by
  unfold mapAssign at h
  split at h
  · rcases mem_mapModify k _ m p h with e | ⟨_, e⟩
    · exact Or.inl e
    · exact Or.inr e
  · rcases (mem_mapInsert k v m p).1 h with e | e
    · exact Or.inr e
    · exact Or.inl e

theorem noSources_mapEmplace (k : Int) (m : List (Int × List Int))
    (h : ∀ p ∈ m, p.2 = []) : ∀ p ∈ mapEmplace k [] m, p.2 = [] := by
  intro p hp
  rcases mem_mapEmplace k [] m p hp with e | e
  · rw [e]
  · exact h p e

theorem noSources_mapAssign (k : Int) (m : List (Int × List Int))
    (h : ∀ p ∈ m, p.2 = []) : ∀ p ∈ mapAssign k [] m, p.2 = [] := by
  intro p hp
  rcases mem_mapAssign k [] m p hp with e | e
  · exact h p e
  · rw [e]

theorem setSources_noSources (a : Int) (ds : List (Int × List Int)) (atom : Int)
    (h : ∀ p ∈ ds, p.2 = []) : ∀ p ∈ Solver.setSources a ds atom, p.2 = [] := by
  unfold Solver.setSources
  split_ifs
  · have h1 := noSources_mapEmplace atom _ (noSources_mapEmplace a ds h)
    simp only [getD_of_noSources _ h1]
    exact noSources_mapAssign a _ h1
  · exact h

theorem setSources_fold_noSources (a : Int) (atoms : List Int) (ds : List (Int × List Int))
    (h : ∀ p ∈ ds, p.2 = []) : ∀ p ∈ atoms.foldl (Solver.setSources a) ds, p.2 = [] := by
  induction atoms generalizing ds with
  | nil => exact h
  | cons b atoms ih => exact ih _ (setSources_noSources a ds b h)

theorem collectSources_fold_noSources (atoms : List Int) (u : List Int)
    (ds : List (Int × List Int)) (h : ∀ p ∈ ds, p.2 = []) :
    ∀ p ∈ (atoms.foldl Solver.collectSources (u, ds)).2, p.2 = [] := by
  induction atoms generalizing u ds with
  | nil => exact h
  | cons b atoms ih =>
    simp only [List.foldl_cons, Solver.collectSources]
    exact ih _ _ (noSources_mapEmplace _ ds h)

theorem analyzeConflict_noSources (s : Solver) (c : Clause) (hn : s.NoSources) :
    ∃ ds, (∀ p ∈ ds, p.2 = []) ∧
      s.analyzeConflict c = (none, { s with decision_sources := ds }) := by
  obtain ⟨_, h2, _⟩ := collectSources_spec c.atoms [] s.decision_sources List.Pairwise.nil
  have he : (c.atoms.foldl Solver.collectSources ([], s.decision_sources)).1 = [] := by
    apply List.eq_nil_iff_forall_not_mem.2
    intro x hx
    rcases (h2 x).1 hx with e | ⟨a, _, e⟩
    · cases e
    · rw [getD_of_noSources _ hn] at e; cases e
  refine ⟨(c.atoms.foldl Solver.collectSources ([], s.decision_sources)).2,
    collectSources_fold_noSources c.atoms [] _ hn, ?_⟩
  unfold Solver.analyzeConflict
  simp only [he, List.foldl_nil]
  rfl

/-! ## The unit clause of a propagation -/

theorem filter_singleton_find {α : Type} (p : α → Bool) (l : List α) (a : α)
    (h : l.filter p = [a]) : l.find? p = some a := by
  induction l with
  | nil => simp at h
  | cons b l ih =>
    by_cases hb : p b = true
    · simp only [List.filter_cons, hb, if_true, List.cons.injEq] at h
      rw [List.find?_cons, hb, h.1]
    · have hb1 : p b = false := by simpa using hb
      simp only [List.filter_cons, hb1, Bool.false_eq_true, if_false] at h
      simp only [List.find?_cons, hb1]
      exact ih h

theorem unit_unassigned_atom (lits : List (Int × Literal)) (c : Clause)
    (h : c.isUnitClause lits = true) :
    c.getUnassignedAtom lits ∈ c.atoms ∧
    atomUnassigned lits (c.getUnassignedAtom lits) = true ∧
    c.atoms.any (atomSatisfied lits) = false ∧
    (∀ b ∈ c.atoms, atomUnassigned lits b = true → b = c.getUnassignedAtom lits) := by
  unfold Clause.isUnitClause at h
  simp only [Bool.and_eq_true, beq_iff_eq, Bool.not_eq_true'] at h
  obtain ⟨hlen, hsat⟩ := h
  obtain ⟨a, ha⟩ := List.length_eq_one.1 hlen
  have hfind := filter_singleton_find _ _ a ha
  have hget : c.getUnassignedAtom lits = a := by
    unfold Clause.getUnassignedAtom
    rw [hfind]
  rw [hget]
  refine ⟨List.mem_of_find?_eq_some hfind, ?_, hsat, ?_⟩
  · simpa using List.find?_some hfind
  · intro b hb hub
    have : b ∈ c.atoms.filter (atomUnassigned lits) := List.mem_filter.2 ⟨hb, hub⟩
    rw [ha] at this
    simpa using this

/-! ## A propagation step on a closed solver without antecedents -/

theorem getUnitClause_index (s : Solver) (hu : s.getUnitClause ≠ -1) :
    ∃ (i : Nat) (uc : Clause), s.getUnitClause = (i : Int) ∧ s.clauses.get? i = some uc ∧
      uc.isUnitClause s.literals = true := by
  unfold Solver.getUnitClause at hu ⊢
  rcases getUnitClauseFrom_spec s.literals s.clauses 0 with
    ⟨h1, _⟩ | ⟨j, c0, h1, h2, h3, _⟩
  · exact absurd h1 hu
  · exact ⟨j, c0, by rw [h1]; congr 1; omega, h2, h3⟩

theorem propagate_closed (s : Solver) (hc : s.Closed) (hn : s.NoSources) (i : Nat)
    (uc : Clause) (hget : s.clauses.get? i = some uc)
    (hunit : uc.isUnitClause s.literals = true) :
    (∃ ds, (∀ p ∈ ds, p.2 = []) ∧
      (Solver.scanClauses (s.propagatedLiterals (uc.getUnassignedAtom s.literals))
        (uc.getUnassignedAtom s.literals) s.clauses).2 = none ∧
      s.propagate (i : Int) = .running
        { s with
          literals := s.propagatedLiterals (uc.getUnassignedAtom s.literals),
          decision_sources := ds,
          clauses := (Solver.scanClauses
            (s.propagatedLiterals (uc.getUnassignedAtom s.literals))
            (uc.getUnassignedAtom s.literals) s.clauses).1 }) ∨
    (∃ ds c, (∀ p ∈ ds, p.2 = []) ∧
      (Solver.scanClauses (s.propagatedLiterals (uc.getUnassignedAtom s.literals))
        (uc.getUnassignedAtom s.literals) s.clauses).2 = some c ∧
      s.propagate (i : Int) = .returned
        { s with
          literals := s.propagatedLiterals (uc.getUnassignedAtom s.literals),
          decision_sources := ds,
          clauses := (Solver.scanClauses
            (s.propagatedLiterals (uc.getUnassignedAtom s.literals))
            (uc.getUnassignedAtom s.literals) s.clauses).1,
          result := "UNSAT" }) := by
  obtain ⟨hmem, _, _, _⟩ := unit_unassigned_atom s.literals uc hunit
  have hlit := hc.2 uc (List.get?_mem hget) _ hmem
  obtain ⟨l, hl⟩ := Option.isSome_iff_exists.1 hlit
  have hds := setSources_fold_noSources (uc.getUnassignedAtom s.literals) uc.atoms
    s.decision_sources hn
  unfold absInt at hl
  unfold Solver.propagate Solver.propagatedLiterals absInt
  simp only [Int.toNat_ofNat, hget, hl]
  cases hsc : (Solver.scanClauses
      (mapModify (if uc.getUnassignedAtom s.literals > 0 then uc.getUnassignedAtom s.literals
        else neg32 (uc.getUnassignedAtom s.literals))
        (fun l => l.assign (decide (uc.getUnassignedAtom s.literals > 0))) s.literals)
      (uc.getUnassignedAtom s.literals) s.clauses).2 with
  | none =>
    left
    exact ⟨_, hds, rfl, rfl⟩
  | some c =>
    right
    obtain ⟨ds2, hds2, hac⟩ := analyzeConflict_noSources
      { s with
        literals := mapModify (if uc.getUnassignedAtom s.literals > 0 then
            uc.getUnassignedAtom s.literals else neg32 (uc.getUnassignedAtom s.literals))
          (fun l => l.assign (decide (uc.getUnassignedAtom s.literals > 0))) s.literals,
        decision_sources := uc.atoms.foldl
          (Solver.setSources (uc.getUnassignedAtom s.literals)) s.decision_sources,
        clauses := (Solver.scanClauses
          (mapModify (if uc.getUnassignedAtom s.literals > 0 then
              uc.getUnassignedAtom s.literals else neg32 (uc.getUnassignedAtom s.literals))
            (fun l => l.assign (decide (uc.getUnassignedAtom s.literals > 0))) s.literals)
          (uc.getUnassignedAtom s.literals) s.clauses).1 } c hds
    refine ⟨ds2, c, hds2, rfl, ?_⟩
    simp only [hac]

theorem scanClauses_none_noFalsified (lits : List (Int × Literal)) (u : Int)
    (cs : List Clause) (h : (Solver.scanClauses lits u cs).2 = none) :
    ∀ c ∈ (Solver.scanClauses lits u cs).1, ¬ (c.assigned = true ∧ c.value = false) := by
  induction cs with
  | nil => intro c hc; simp [Solver.scanClauses] at hc
  | cons c0 cs ih =>
    simp only [Solver.scanClauses, Clause.assignAtom] at h ⊢
    split_ifs at h ⊢ with hc0
    intro c hc
    rcases List.mem_cons.1 hc with e | e
    · rw [e]
      intro hf
      apply hc0
      simp [hf.1, hf.2]
    · exact ih h c e

theorem scanClauses_some (lits : List (Int × Literal)) (u : Int) (cs : List Clause)
    (c : Clause) (h : (Solver.scanClauses lits u cs).2 = some c) :
    c ∈ (Solver.scanClauses lits u cs).1 ∧ c.assigned = true ∧ c.value = false := by
  induction cs with
  | nil => simp [Solver.scanClauses] at h
  | cons c0 cs ih =>
    simp only [Solver.scanClauses, Clause.assignAtom] at h ⊢
    split_ifs at h ⊢ with hc0
    · simp only [Option.some.injEq] at h
      subst h
      refine ⟨List.mem_cons_self _ _, ?_⟩
      simpa using hc0
    · obtain ⟨h1, h2⟩ := ih h
      exact ⟨List.mem_cons_of_mem _ h1, h2⟩

theorem closed_of_same_keys (s s1 : Solver) (hc : s.Closed) (hl : s1.labels = s.labels)
    (hk : ∀ j, (mapFind j s1.literals).isSome = (mapFind j s.literals).isSome)
    (ha : s1.clauses.map Clause.atoms = s.clauses.map Clause.atoms) : s1.Closed := by
  refine ⟨?_, ?_⟩
  · intro k; rw [hl, hk]; exact hc.1 k
  · intro c hcm a hac
    have : c.atoms ∈ s.clauses.map Clause.atoms := by
      rw [← ha]; exact List.mem_map_of_mem _ hcm
    obtain ⟨c0, hc0, e⟩ := List.mem_map.1 this
    rw [hk]
    exact hc.2 c0 hc0 a (by rw [e]; exact hac)

theorem firstUnassigned_some (m : List (Int × Literal)) (k : Int)
    (h : Solver.firstUnassigned m = some k) : ∃ l, (k, l) ∈ m ∧ l.assigned = false := by
  induction m with
  | nil => simp [Solver.firstUnassigned] at h
  | cons q m ih =>
    obtain ⟨k1, l1⟩ := q
    simp only [Solver.firstUnassigned] at h
    split_ifs at h with h1
    · simp only [Option.some.injEq] at h
      subst h
      exact ⟨l1, List.mem_cons_self _ _, by simpa using h1⟩
    · obtain ⟨l, hl, ha⟩ := ih h
      exact ⟨l, List.mem_cons_of_mem _ hl, ha⟩

theorem makeDecision_cases (s : Solver) :
    (Solver.firstUnassigned s.literals = none ∧ s.makeDecision = some s) ∨
    (∃ k l, Solver.firstUnassigned s.literals = some k ∧ mapFind k s.literals = some l ∧
      s.makeDecision = some
        { s with
          literals := mapModify k (fun l => l.assign true) s.literals,
          clauses := s.clauses.map (fun c => (c.assignAtom k).recalculateStatus
            (mapModify k (fun l => l.assign true) s.literals)),
          decision_level := mapAssign k s.current_decision_level s.decision_level,
          current_decision_level := wrap32 (s.current_decision_level + 1) }) := by
  cases hf : Solver.firstUnassigned s.literals with
  | none => left; exact ⟨rfl, by simp [Solver.makeDecision, hf]⟩
  | some k =>
    right
    obtain ⟨l0, hl0, _⟩ := firstUnassigned_some s.literals k hf
    obtain ⟨l, hl⟩ := Option.isSome_iff_exists.1 (mapFind_isSome_of_mem k l0 _ hl0)
    exact ⟨k, l, rfl, hl, makeDecision_of_first s k l hf hl⟩

theorem checkSATStep_closed (s : Solver) (hc : s.Closed) (hn : s.NoSources) :
    (∃ s1, s.checkSATStep = .running s1 ∧ s1.Closed ∧ s1.NoSources ∧
      s1.clauses.map Clause.atoms = s.clauses.map Clause.atoms) ∨
    (∃ s1, s.checkSATStep = .returned s1 ∧ s1.Closed ∧ s1.NoSources ∧
      s1.clauses.map Clause.atoms = s.clauses.map Clause.atoms ∧
      (s1.result = "SAT" ∨ s1.result = "UNSAT")) := by
  by_cases hu : s.getUnitClause = -1
  · have hstep : s.checkSATStep =
        if s.allClausesSatisfied then .returned { s with result := "SAT" }
        else match s.makeDecision with
          | none => .undefined
          | some s1 => .running s1 := by
      unfold Solver.checkSATStep
      simp [hu]
    by_cases hall : s.allClausesSatisfied = true
    · right
      rw [if_pos hall] at hstep
      refine ⟨_, hstep, ?_, hn, rfl, Or.inl rfl⟩
      exact closed_of_same_keys s _ hc rfl (fun _ => rfl) rfl
    · left
      rw [if_neg hall] at hstep
      rcases makeDecision_cases s with ⟨_, hm⟩ | ⟨k, l, _, _, hm⟩
      · simp only [hm] at hstep
        exact ⟨s, hstep, hc, hn, rfl⟩
      · simp only [hm] at hstep
        refine ⟨_, hstep, ?_, hn, ?_⟩
        · exact closed_of_same_keys s _ hc rfl
            (fun j => mapFind_mapModify_isSome j k _ _) (map_atoms_recalculate _ _)
        · exact map_atoms_recalculate _ _
  · obtain ⟨i, uc, hi, hget, hunit⟩ := getUnitClause_index s hu
    have hstep : s.checkSATStep = s.propagate (i : Int) := by
      unfold Solver.checkSATStep
      simp only [hi]
      rw [if_pos]
      rw [← hi]; simpa using hu
    rcases propagate_closed s hc hn i uc hget hunit with
      ⟨ds, hds, _, hp⟩ | ⟨ds, c, hds, _, hp⟩
    · left
      rw [hp] at hstep
      refine ⟨_, hstep, ?_, hds, scanClauses_atoms _ _ _⟩
      exact closed_of_same_keys s _ hc rfl
        (fun j => mapFind_mapModify_isSome j _ _ _) (scanClauses_atoms _ _ _)
    · right
      rw [hp] at hstep
      refine ⟨_, hstep, ?_, hds, scanClauses_atoms _ _ _, Or.inr rfl⟩
      exact closed_of_same_keys s _ hc rfl
        (fun j => mapFind_mapModify_isSome j _ _ _) (scanClauses_atoms _ _ _)

theorem checkSAT_closed (n : Nat) (s : Solver) (hc : s.Closed) (hn : s.NoSources) :
    (∃ s1, Solver.checkSAT n s = .running s1 ∧ s1.Closed ∧ s1.NoSources ∧
      s1.clauses.map Clause.atoms = s.clauses.map Clause.atoms) ∨
    (∃ s1, Solver.checkSAT n s = .returned s1 ∧ s1.Closed ∧ s1.NoSources ∧
      s1.clauses.map Clause.atoms = s.clauses.map Clause.atoms ∧
      (s1.result = "SAT" ∨ s1.result = "UNSAT")) := by
  induction n generalizing s with
  | zero => left; exact ⟨s, rfl, hc, hn, rfl⟩
  | succ n ih =>
    rcases checkSATStep_closed s hc hn with ⟨s0, h0, hc0, hn0, ha0⟩ | ⟨s0, h0, hc0, hn0, ha0, hr⟩
    · rcases ih s0 hc0 hn0 with ⟨s1, h1, hc1, hn1, ha1⟩ | ⟨s1, h1, hc1, hn1, ha1, hr1⟩
      · left
        exact ⟨s1, by simp only [Solver.checkSAT, h0, h1], hc1, hn1, ha1.trans ha0⟩
      · right
        exact ⟨s1, by simp only [Solver.checkSAT, h0, h1], hc1, hn1, ha1.trans ha0, hr1⟩
    · right
      exact ⟨s0, by simp only [Solver.checkSAT, h0], hc0, hn0, ha0, hr⟩

theorem checkSATStep_propagation (s : Solver) (hc : s.Closed) (hn : s.NoSources)
    (hu : s.getUnitClause ≠ -1) :
    ∃ (i : Nat) (uc : Clause), s.getUnitClause = (i : Int) ∧ s.clauses.get? i = some uc ∧
      uc.isUnitClause s.literals = true ∧
      ((∃ ds, (∀ p ∈ ds, p.2 = []) ∧
        (Solver.scanClauses (s.propagatedLiterals (uc.getUnassignedAtom s.literals))
          (uc.getUnassignedAtom s.literals) s.clauses).2 = none ∧
        s.checkSATStep = .running
          { s with
            literals := s.propagatedLiterals (uc.getUnassignedAtom s.literals),
            decision_sources := ds,
            clauses := (Solver.scanClauses
              (s.propagatedLiterals (uc.getUnassignedAtom s.literals))
              (uc.getUnassignedAtom s.literals) s.clauses).1 }) ∨
      (∃ ds c, (∀ p ∈ ds, p.2 = []) ∧
        (Solver.scanClauses (s.propagatedLiterals (uc.getUnassignedAtom s.literals))
          (uc.getUnassignedAtom s.literals) s.clauses).2 = some c ∧
        s.checkSATStep = .returned
          { s with
            literals := s.propagatedLiterals (uc.getUnassignedAtom s.literals),
            decision_sources := ds,
            clauses := (Solver.scanClauses
              (s.propagatedLiterals (uc.getUnassignedAtom s.literals))
              (uc.getUnassignedAtom s.literals) s.clauses).1,
            result := "UNSAT" })) := by
  obtain ⟨i, uc, hi, hget, hunit⟩ := getUnitClause_index s hu
  have hstep : s.checkSATStep = s.propagate (i : Int) := by
    unfold Solver.checkSATStep
    simp only [hi]
    rw [if_pos]
    rw [← hi]; simpa using hu
  refine ⟨i, uc, hi, hget, hunit, ?_⟩
  rw [hstep]
  exact propagate_closed s hc hn i uc hget hunit

/-! ## Reachable states: closed variable table, empty antecedents -/

/-- C20 (counterexample): the solver built by `addClause([-2147483648])`, the state
in which `checkSAT` starts, has the atom -2147483648 in a clause and no key
`|a|` = 2147483648 in the `literals` map; the key is -2147483648. -/
theorem reachable_least_int_counterexample :
    Solver.checkSAT 0 (Solver.build [[-2147483648]])
      = .running (Solver.mk [⟨[-2147483648], false, false⟩] [-2147483648]
          [(-2147483648, ⟨-2147483648, false, false⟩)] [] 0 [] "TBD") ∧
    mapFind 2147483648 (Solver.build [[-2147483648]]).literals = none := by
  decide

/-- C20 (amended): after any number `n` of loop iterations of `checkSAT` on a solver
built by `addClause` calls, the run is in a state `s` (still in the loop or returned,
never undefined) in which the labels are exactly the keys of the `literals` map, the
variable `|a|` of every atom `a` other than -2147483648 of every clause is a key, and so
is, for every atom, the key that lines 51 and 181 compute from it; the next iteration
from `s` is not undefined either, so every lookup of `makeDecision`, `assignLiteral` and
of the propagation step finds its variable. -/
theorem reachable_closed (formula : List (List Int)) (n : Nat) :
    ∃ s, (Solver.checkSAT n (Solver.build formula) = .running s ∨
        Solver.checkSAT n (Solver.build formula) = .returned s) ∧
      (∀ k, k ∈ s.labels ↔ (mapFind k s.literals).isSome = true) ∧
      (∀ c ∈ s.clauses, ∀ a ∈ c.atoms, -2147483648 < a →
        (mapFind |a| s.literals).isSome = true) ∧
      (∀ c ∈ s.clauses, ∀ a ∈ c.atoms, (mapFind (absInt a) s.literals).isSome = true) ∧
      s.makeDecision ≠ none ∧
      s.checkSATStep ≠ .undefined := by
  obtain ⟨hc, hn⟩ := build_closed formula
  have hfin : ∀ s : Solver, s.Closed → s.NoSources →
      s.makeDecision ≠ none ∧ s.checkSATStep ≠ .undefined := by
    intro s hc1 hn1
    constructor
    · rcases makeDecision_cases s with ⟨_, hm⟩ | ⟨_, _, _, _, hm⟩ <;> rw [hm] <;> simp
    · rcases checkSATStep_closed s hc1 hn1 with ⟨s1, h1, _⟩ | ⟨s1, h1, _⟩ <;> rw [h1] <;> simp
  have habs : ∀ s : Solver, s.Closed → ∀ c ∈ s.clauses, ∀ a ∈ c.atoms, -2147483648 < a →
      (mapFind |a| s.literals).isSome = true := by
    intro s hc1 c hcm a ha hlt
    rw [← absInt_eq_abs a hlt]
    exact hc1.2 c hcm a ha
  rcases checkSAT_closed n _ hc hn with ⟨s, h, hc1, hn1, _⟩ | ⟨s, h, hc1, hn1, _⟩
  · exact ⟨s, Or.inl h, hc1.1, habs s hc1, hc1.2, hfin s hc1 hn1⟩
  · exact ⟨s, Or.inr h, hc1.1, habs s hc1, hc1.2, hfin s hc1 hn1⟩

/-- C18: after any number `n` of loop iterations of `checkSAT` on a solver built by
`addClause` calls, the run is in a state `s` in which every set stored in
`decision_sources` is empty, `analyzeConflict` returns no clause for every clause, and
the clause collection holds exactly the added clauses (no learnt clause was appended).
A propagation step from `s` either stays in the loop, with no falsified clause, the same
clauses and `decision_level` and the counter untouched (no `backtrack`), or returns with
`result = "UNSAT"` on the falsified clause it met. -/
theorem reachable_no_sources (formula : List (List Int)) (n : Nat) :
    ∃ s, (Solver.checkSAT n (Solver.build formula) = .running s ∨
        Solver.checkSAT n (Solver.build formula) = .returned s) ∧
      (∀ p ∈ s.decision_sources, p.2 = []) ∧
      (∀ c, (s.analyzeConflict c).1 = none) ∧
      s.clauses.map Clause.atoms = formula.filter (fun atoms => decide (atoms ≠ [])) ∧
      (s.getUnitClause ≠ -1 →
        (∃ s1, s.checkSATStep = .running s1 ∧ s1.NoFalsified ∧
          s1.decision_level = s.decision_level ∧
          s1.current_decision_level = s.current_decision_level ∧
          s1.clauses.map Clause.atoms = s.clauses.map Clause.atoms) ∨
        (∃ s1, s.checkSATStep = .returned s1 ∧ s1.result = "UNSAT" ∧ ¬ s1.NoFalsified)) := by
  obtain ⟨hc, hn⟩ := build_closed formula
  have hfin : ∀ s : Solver, s.Closed → s.NoSources →
      (∀ c, (s.analyzeConflict c).1 = none) ∧
      (s.getUnitClause ≠ -1 →
        (∃ s1, s.checkSATStep = .running s1 ∧ s1.NoFalsified ∧
          s1.decision_level = s.decision_level ∧
          s1.current_decision_level = s.current_decision_level ∧
          s1.clauses.map Clause.atoms = s.clauses.map Clause.atoms) ∨
        (∃ s1, s.checkSATStep = .returned s1 ∧ s1.result = "UNSAT" ∧ ¬ s1.NoFalsified)) := by
    intro s hc1 hn1
    constructor
    · intro c
      obtain ⟨ds, _, hac⟩ := analyzeConflict_noSources s c hn1
      rw [hac]
    · intro hu
      obtain ⟨i, uc, _, _, _, hcases⟩ := checkSATStep_propagation s hc1 hn1 hu
      rcases hcases with ⟨ds, _, hsc, hstep⟩ | ⟨ds, c, _, hsc, hstep⟩
      · left
        exact ⟨_, hstep, scanClauses_none_noFalsified _ _ _ hsc, rfl, rfl,
          scanClauses_atoms _ _ _⟩
      · right
        refine ⟨_, hstep, rfl, ?_⟩
        intro hnf
        obtain ⟨h1, h2⟩ := scanClauses_some _ _ _ c hsc
        exact hnf c h1 h2
  rcases checkSAT_closed n _ hc hn with ⟨s, h, hc1, hn1, ha⟩ | ⟨s, h, hc1, hn1, ha, _⟩
  · exact ⟨s, Or.inl h, hn1, (hfin s hc1 hn1).1, by rw [ha, build_atoms],
      (hfin s hc1 hn1).2⟩
  · exact ⟨s, Or.inr h, hn1, (hfin s hc1 hn1).1, by rw [ha, build_atoms],
      (hfin s hc1 hn1).2⟩

/-! ## The value forced by a propagation -/

theorem mapModify_keys {α : Type} (k : Int) (f : α → α) (m : List (Int × α)) :
    (mapModify k f m).map Prod.fst = m.map Prod.fst := by
  induction m with
  | nil => rfl
  | cons p m ih =>
    obtain ⟨k1, v1⟩ := p
    unfold mapModify
    split_ifs
    · rfl
    · simp only [List.map_cons, ih]

theorem mapModify_ordered {α : Type} (k : Int) (f : α → α) (m : List (Int × α))
    (h : MapOrdered m) : MapOrdered (mapModify k f m) := by
  unfold MapOrdered at h ⊢
  have h1 : (m.map Prod.fst).Pairwise (fun a b => a < b) := List.pairwise_map.2 h
  rw [← mapModify_keys k f m] at h1
  exact List.pairwise_map.1 h1

theorem count_mapModify (k : Int) (f : Literal → Literal) (m : List (Int × Literal))
    (l : Literal) (hl : mapFind k m = some l) (hu : l.assigned = false)
    (hf : (f l).assigned = true) :
    ((mapModify k f m).filter (fun p => !p.2.assigned)).length + 1
      = (m.filter (fun p => !p.2.assigned)).length := by
  induction m with
  | nil => simp [mapFind] at hl
  | cons p m ih =>
    obtain ⟨k1, v1⟩ := p
    unfold mapFind at hl
    unfold mapModify
    split_ifs at hl ⊢ with hk
    · simp only [Option.some.injEq] at hl
      subst hl
      simp [List.filter_cons, hu, hf]
    · have := ih hl
      by_cases hv : v1.assigned = true
      · simp only [List.filter_cons, hv, Bool.not_true, Bool.false_eq_true, if_false]
        exact this
      · have hv1 : v1.assigned = false := by simpa using hv
        simp only [List.filter_cons, hv1, Bool.not_false, if_true, List.length_cons]
        omega

theorem distinct_of_same_atoms (s s1 : Solver)
    (ha : s1.clauses.map Clause.atoms = s.clauses.map Clause.atoms) (hd : s.DistinctVars) :
    s1.DistinctVars := by
  intro c hc
  have : c.atoms ∈ s.clauses.map Clause.atoms := by
    rw [← ha]; exact List.mem_map_of_mem _ hc
  obtain ⟨c0, hc0, e⟩ := List.mem_map.1 this
  rw [← e]; exact hd c0 hc0

theorem exists_unassigned (s : Solver) (hc : s.Closed) (hf : s.Fresh) (hnf : s.NoFalsified)
    (hall : s.allClausesSatisfied = false) : ∃ p ∈ s.literals, p.2.assigned = false := by
  unfold Solver.allClausesSatisfied at hall
  obtain ⟨c, hcm, hcs⟩ := List.all_eq_false.1 hall
  have hca : c.assigned = false := by
    have h1 := hnf c hcm
    cases ha : c.assigned
    · rfl
    · cases hv : c.value
      · exact absurd ⟨ha, hv⟩ h1
      · simp [ha, hv] at hcs
  have hfc := hf c hcm
  have hra : (c.recalculateStatus s.literals).assigned = false := by rw [hfc]; exact hca
  have hex : ∃ b ∈ c.atoms, atomUnassigned s.literals b = true := by
    unfold Clause.recalculateStatus at hra
    split_ifs at hra with h1 h2
    rw [Bool.not_eq_true, List.all_eq_false] at h2
    obtain ⟨b, hb, hbu⟩ := h2
    exact ⟨b, hb, by simpa using hbu⟩
  obtain ⟨b, hb, hbu⟩ := hex
  obtain ⟨l, hl⟩ := Option.isSome_iff_exists.1 (hc.2 c hcm b hb)
  refine ⟨(absInt b, l), mapFind_mem _ l _ hl, ?_⟩
  unfold atomUnassigned at hbu
  rw [hl] at hbu
  simpa using hbu

theorem atom_status_of_ne (lits : List (Int × Literal)) (k : Int) (f : Literal → Literal)
    (b : Int) (hb : absInt b ≠ k) :
    atomUnassigned (mapModify k f lits) b = atomUnassigned lits b ∧
    atomSatisfied (mapModify k f lits) b = atomSatisfied lits b := by
  unfold atomUnassigned atomSatisfied
  rw [mapFind_mapModify_ne (absInt b) k f lits hb]
  exact ⟨rfl, rfl⟩

theorem atomSatisfied_var_ne (lits : List (Int × Literal)) (k : Int) (l : Literal) (b : Int)
    (hl : mapFind k lits = some l) (hu : l.assigned = false)
    (hs : atomSatisfied lits b = true) : absInt b ≠ k := by
  intro e
  unfold atomSatisfied at hs
  rw [e, hl] at hs
  simp [hu] at hs

theorem decision_not_falsified (lits : List (Int × Literal)) (k : Int) (l : Literal)
    (f : Literal → Literal) (c : Clause)
    (hl : mapFind k lits = some l) (hu : l.assigned = false)
    (hd : (c.atoms.map absInt).Nodup)
    (hnu : c.isUnitClause lits = false)
    (hnf : ¬ ((c.recalculateStatus lits).assigned = true ∧
      (c.recalculateStatus lits).value = false)) :
    ¬ ((c.recalculateStatus (mapModify k f lits)).assigned = true ∧
      (c.recalculateStatus (mapModify k f lits)).value = false) := by
  intro hfal
  -- under the new variables no atom is satisfied and none is unassigned
  have hnew : c.atoms.any (atomSatisfied (mapModify k f lits)) = false ∧
      c.atoms.all (fun a => !atomUnassigned (mapModify k f lits) a) = true := by
    unfold Clause.recalculateStatus at hfal
    split_ifs at hfal with h1 h2
    · simp at hfal
    · exact ⟨by simpa using h1, h2⟩
    · simp at hfal
  obtain ⟨hns, hna⟩ := hnew
  -- no atom was satisfied before
  have hold : c.atoms.any (atomSatisfied lits) = false := by
    rw [List.any_eq_false]
    intro b hb hsb
    have hne := atomSatisfied_var_ne lits k l b hl hu hsb
    have := (List.any_eq_false.1 hns) b hb
    rw [(atom_status_of_ne lits k f b hne).2] at this
    exact this hsb
  -- every atom unassigned before is on variable `k`
  have hk : ∀ b ∈ c.atoms.filter (atomUnassigned lits), absInt b = k := by
    intro b hb
    obtain ⟨hb1, hb2⟩ := List.mem_filter.1 hb
    by_contra hne
    have h1 := (List.all_eq_true.1 hna) b hb1
    rw [(atom_status_of_ne lits k f b hne).1, hb2] at h1
    simp at h1
  -- at most one such atom, by distinctness
  have hlen : (c.atoms.filter (atomUnassigned lits)).length ≤ 1 := by
    have hsub : ((c.atoms.filter (atomUnassigned lits)).map absInt).Nodup :=
      List.Nodup.sublist (List.Sublist.map absInt (List.filter_sublist c.atoms)) hd
    have hrep : (c.atoms.filter (atomUnassigned lits)).map absInt
        = List.replicate (c.atoms.filter (atomUnassigned lits)).length k := by
      rw [List.eq_replicate_iff]
      refine ⟨by simp, ?_⟩
      intro x hx
      obtain ⟨b, hb, e⟩ := List.mem_map.1 hx
      rw [← e]; exact hk b hb
    rw [hrep, List.nodup_replicate] at hsub
    exact hsub
  -- but the clause was neither unit nor falsified
  have hne0 : (c.atoms.filter (atomUnassigned lits)).length ≠ 0 := by
    intro h0
    apply hnf
    have hall : c.atoms.all (fun a => !atomUnassigned lits a) = true := by
      rw [List.all_eq_true]
      intro b hb
      have : b ∉ c.atoms.filter (atomUnassigned lits) := by
        rw [List.length_eq_zero.1 h0]; simp
      have hbu : ¬ atomUnassigned lits b = true := fun h => this (List.mem_filter.2 ⟨hb, h⟩)
      simpa using hbu
    unfold Clause.recalculateStatus
    rw [hold, hall]
    simp
  have hne1 : (c.atoms.filter (atomUnassigned lits)).length ≠ 1 := by
    intro h1
    unfold Clause.isUnitClause at hnu
    rw [h1, hold] at hnu
    simp at hnu
  omega

theorem getUnitClause_none (s : Solver) (hu : s.getUnitClause = -1) :
    ∀ c ∈ s.clauses, c.isUnitClause s.literals = false := by
  unfold Solver.getUnitClause at hu
  rcases getUnitClauseFrom_spec s.literals s.clauses 0 with ⟨_, h2⟩ | ⟨j, c0, h1, _⟩
  · exact h2
  · rw [h1] at hu; omega

theorem checkSATStep_steady (s : Solver) (hs : s.Steady) :
    (∃ s1, s.checkSATStep = .returned s1 ∧ s1.result = "SAT") ∨
    (∃ s1, s.checkSATStep = .returned s1 ∧ s1.result = "UNSAT" ∧ 1 ≤ s.unassignedCount) ∨
    (∃ s1, s.checkSATStep = .running s1 ∧ s1.Steady ∧
      s1.unassignedCount + 1 = s.unassignedCount) := by
  obtain ⟨hc, hn, hf, ho, hnf, hd⟩ := hs
  by_cases hu : s.getUnitClause = -1
  · have hstep : s.checkSATStep =
        if s.allClausesSatisfied then .returned { s with result := "SAT" }
        else match s.makeDecision with
          | none => .undefined
          | some s1 => .running s1 := by
      unfold Solver.checkSATStep
      simp [hu]
    by_cases hall : s.allClausesSatisfied = true
    · left
      rw [if_pos hall] at hstep
      exact ⟨_, hstep, rfl⟩
    · right; right
      rw [if_neg hall] at hstep
      have hex := exists_unassigned s hc hf hnf (by simpa using hall)
      obtain ⟨k, l, e1, e2, e3, _⟩ := firstUnassigned_spec s.literals ho hex
      simp only [makeDecision_of_first s k l e1 e2] at hstep
      refine ⟨_, hstep, ⟨?_, hn, ?_, ?_, ?_, ?_⟩, ?_⟩
      · exact closed_of_same_keys s _ hc rfl
          (fun j => mapFind_mapModify_isSome j k _ _) (map_atoms_recalculate _ _)
      · exact fresh_of_map_recalculate _ s.clauses rfl
      · exact mapModify_ordered k _ _ ho
      · intro c1 hc1
        obtain ⟨c, hcm, e⟩ := List.mem_map.1 hc1
        rw [← e]
        apply decision_not_falsified s.literals k l _ c e2 e3 (hd c hcm)
          (getUnitClause_none s hu c hcm)
        rw [hf c hcm]
        exact hnf c hcm
      · exact distinct_of_same_atoms s _ (map_atoms_recalculate _ _) hd
      · exact count_mapModify k _ s.literals l e2 e3 rfl
  · obtain ⟨i, uc, _, hget, hunit, hcases⟩ := checkSATStep_propagation s hc hn hu
    obtain ⟨hmem, hun, _, _⟩ := unit_unassigned_atom s.literals uc hunit
    obtain ⟨l, hl⟩ := Option.isSome_iff_exists.1 (hc.2 uc (List.get?_mem hget) _ hmem)
    have hla : l.assigned = false := by
      unfold atomUnassigned at hun
      rw [hl] at hun
      simpa using hun
    have hcount := count_mapModify (absInt (uc.getUnassignedAtom s.literals))
      (fun l => l.assign (decide (uc.getUnassignedAtom s.literals > 0))) s.literals l hl hla rfl
    rcases hcases with ⟨ds, hds, hsc, hstep⟩ | ⟨ds, c, _, _, hstep⟩
    · right; right
      refine ⟨_, hstep, ⟨?_, hds, ?_, ?_, ?_, ?_⟩, hcount⟩
      · exact closed_of_same_keys s _ hc rfl
          (fun j => mapFind_mapModify_isSome j _ _ _) (scanClauses_atoms _ _ _)
      · exact fresh_of_map_recalculate _ s.clauses (scanClauses_none _ _ _ hsc)
      · exact mapModify_ordered _ _ _ ho
      · exact scanClauses_none_noFalsified _ _ _ hsc
      · exact distinct_of_same_atoms s _ (scanClauses_atoms _ _ _) hd
    · right; left
      refine ⟨_, hstep, rfl, ?_⟩
      unfold Solver.unassignedCount
      omega

theorem checkSAT_steady (n : Nat) (s s1 : Solver) (hs : s.Steady)
    (h : Solver.checkSAT n s = .running s1) : s1.Steady := by
  induction n generalizing s with
  | zero =>
    simp only [Solver.checkSAT, Run.running.injEq] at h
    subst h; exact hs
  | succ n ih =>
    rcases checkSATStep_steady s hs with ⟨s0, h0, _⟩ | ⟨s0, h0, _⟩ | ⟨s0, h0, hs0, _⟩
    · simp only [Solver.checkSAT, h0] at h
      cases h
    · simp only [Solver.checkSAT, h0] at h
      cases h
    · simp only [Solver.checkSAT, h0] at h
      exact ih s0 hs0 h

theorem steady_terminates (m : Nat) (s : Solver) (hs : s.Steady)
    (hm : s.unassignedCount ≤ m) :
    ∃ n s1, Solver.checkSAT n s = .returned s1 ∧
      ((s1.result = "SAT" ∧ n ≤ m + 1) ∨ (s1.result = "UNSAT" ∧ n ≤ m)) := by
  induction m generalizing s with
  | zero =>
    rcases checkSATStep_steady s hs with ⟨s0, h0, hr⟩ | ⟨s0, h0, _, hc⟩ | ⟨s0, h0, _, hc⟩
    · exact ⟨1, s0, by simp only [Solver.checkSAT, h0], Or.inl ⟨hr, le_refl _⟩⟩
    · omega
    · omega
  | succ m ih =>
    rcases checkSATStep_steady s hs with ⟨s0, h0, hr⟩ | ⟨s0, h0, hr, _⟩ | ⟨s0, h0, hs0, hc⟩
    · exact ⟨1, s0, by simp only [Solver.checkSAT, h0], Or.inl ⟨hr, by omega⟩⟩
    · exact ⟨1, s0, by simp only [Solver.checkSAT, h0], Or.inr ⟨hr, by omega⟩⟩
    · obtain ⟨n, s1, h1, hb⟩ := ih s0 hs0 (by omega)
      refine ⟨n + 1, s1, by simp only [Solver.checkSAT, h0]; exact h1, ?_⟩
      rcases hb with ⟨hr, hn⟩ | ⟨hr, hn⟩
      · exact Or.inl ⟨hr, by omega⟩
      · exact Or.inr ⟨hr, by omega⟩

theorem mapInsert_ordered {α : Type} (k : Int) (v : α) (m : List (Int × α))
    (ho : MapOrdered m) (hk : mapFind k m = none) : MapOrdered (mapInsert k v m) := by
  unfold MapOrdered at ho ⊢
  induction m with
  | nil => simp [mapInsert]
  | cons p m ih =>
    obtain ⟨k1, v1⟩ := p
    have ho1 := List.pairwise_cons.1 ho
    unfold mapFind at hk
    split_ifs at hk with hkk
    unfold mapInsert
    split_ifs with hlt
    · refine List.pairwise_cons.2 ⟨?_, ho⟩
      intro q hq
      rcases List.mem_cons.1 hq with e | e
      · rw [e]; exact hlt
      · exact lt_trans hlt (ho1.1 q e)
    · refine List.pairwise_cons.2 ⟨?_, ih ho1.2 hk⟩
      intro q hq
      rcases (mem_mapInsert k v m q).1 hq with e | e
      · rw [e]; show k1 < k; omega
      · exact ho1.1 q e

theorem mapEmplace_ordered {α : Type} (k : Int) (v : α) (m : List (Int × α))
    (ho : MapOrdered m) : MapOrdered (mapEmplace k v m) := by
  unfold mapEmplace
  split
  · exact ho
  · rename_i hk
    exact mapInsert_ordered k v m ho hk

theorem addAtoms_ordered (atoms : List Int) (acc : Solver × Clause)
    (ho : MapOrdered acc.1.literals) :
    MapOrdered (atoms.foldl Solver.addAtomStep acc).1.literals := by
  induction atoms generalizing acc with
  | nil => exact ho
  | cons a atoms ih =>
    apply ih
    unfold Solver.addAtomStep
    simp only
    split_ifs
    · exact mapEmplace_ordered _ _ _ ho
    · exact ho

theorem addClause_ordered (s : Solver) (atoms : List Int) (ho : MapOrdered s.literals) :
    MapOrdered (s.addClause atoms).literals := by
  by_cases hne : atoms = []
  · subst hne; rw [show s.addClause [] = s by simp [Solver.addClause]]; exact ho
  · rw [addClause_of_ne s atoms hne]
    exact addAtoms_ordered atoms (s, Clause.new) ho

theorem build_ordered_from (formula : List (List Int)) (s : Solver)
    (ho : MapOrdered s.literals) : MapOrdered (formula.foldl Solver.addClause s).literals := by
  induction formula generalizing s with
  | nil => exact ho
  | cons atoms formula ih => exact ih _ (addClause_ordered s atoms ho)

theorem build_steady (formula : List (List Int))
    (hd : ∀ atoms ∈ formula, (atoms.map absInt).Nodup) : (Solver.build formula).Steady := by
  obtain ⟨hc, hn⟩ := build_closed formula
  have hi : (∀ p ∈ (Solver.build formula).literals, p.2.assigned = false) ∧
      (∀ c ∈ (Solver.build formula).clauses,
        c.atoms ≠ [] ∧ c.assigned = false ∧ c.value = false) :=
    build_initial_from formula Solver.new
      (by intro p hp; simp [Solver.new] at hp) (by intro c hc; simp [Solver.new] at hc)
  refine ⟨hc, hn, build_fresh formula, ?_, ?_, ?_⟩
  · exact build_ordered_from formula Solver.new (by simp [Solver.new, MapOrdered])
  · intro c hcm hf
    rw [(hi.2 c hcm).2.1] at hf
    cases hf.1
  · intro c hcm
    have h1 : c.atoms ∈ (Solver.build formula).clauses.map Clause.atoms :=
      List.mem_map_of_mem _ hcm
    rw [build_atoms] at h1
    exact hd _ (List.mem_filter.1 h1).1

/-- C19: on a solver built from a formula in which no clause mentions a variable twice,
`checkSAT` returns after `n` loop iterations with `result` equal to `"SAT"` or
`"UNSAT"`; `n` is at most the number of variables plus the final iteration that reports
SAT, and at most the number of variables when UNSAT is reported.  At the head of every
iteration no clause is falsified, and every iteration that stays in the loop assigns
exactly one previously unassigned variable. -/
theorem checkSAT_terminates_distinct (formula : List (List Int))
    (hd : ∀ atoms ∈ formula, (atoms.map absInt).Nodup) :
    ∃ n s1, Solver.checkSAT n (Solver.build formula) = .returned s1 ∧
      ((s1.result = "SAT" ∧ n ≤ (Solver.build formula).literals.length + 1) ∨
        (s1.result = "UNSAT" ∧ n ≤ (Solver.build formula).literals.length)) ∧
      (∀ m s, Solver.checkSAT m (Solver.build formula) = .running s → s.NoFalsified) ∧
      (∀ m s s2, Solver.checkSAT m (Solver.build formula) = .running s →
        s.checkSATStep = .running s2 → s2.unassignedCount + 1 = s.unassignedCount) := by
  have hs := build_steady formula hd
  have hm : (Solver.build formula).unassignedCount ≤ (Solver.build formula).literals.length :=
    List.length_filter_le _ _
  obtain ⟨n, s1, h1, hb⟩ := steady_terminates _ _ hs hm
  refine ⟨n, s1, h1, hb, ?_, ?_⟩
  · intro m s h
    exact (checkSAT_steady m _ s hs h).2.2.2.2.1
  · intro m s s2 h h2
    rcases checkSATStep_steady s (checkSAT_steady m _ s hs h) with
      ⟨s0, h0, _⟩ | ⟨s0, h0, _⟩ | ⟨s0, h0, _, hc⟩
    · rw [h0] at h2; cases h2
    · rw [h0] at h2; cases h2
    · rw [h0] at h2; cases h2; exact hc

/-- Witness of C19: the formula of scenario 3, two variables, no variable twice in a
clause. -/
theorem checkSAT_terminates_distinct_witness :
    ∃ n s1, Solver.checkSAT n (Solver.build [[1, 2], [-1, 2]]) = .returned s1 ∧
      ((s1.result = "SAT" ∧ n ≤ (Solver.build [[1, 2], [-1, 2]]).literals.length + 1) ∨
        (s1.result = "UNSAT" ∧ n ≤ (Solver.build [[1, 2], [-1, 2]]).literals.length)) ∧
      (∀ m s, Solver.checkSAT m (Solver.build [[1, 2], [-1, 2]]) = .running s →
        s.NoFalsified) ∧
      (∀ m s s2, Solver.checkSAT m (Solver.build [[1, 2], [-1, 2]]) = .running s →
        s.checkSATStep = .running s2 → s2.unassignedCount + 1 = s.unassignedCount) :=
  checkSAT_terminates_distinct [[1, 2], [-1, 2]] (by decide)

/-! ## The level recorded by a decision -/

end VMI
